import Mathlib

/-!
# SignBridge hand-landmark bridge: shallow embedding and verification

This file embeds the hand-landmark streaming bridge of the `signbridge-app`
repository and settles the specification claims about it.

Embedded source material:
* `SignBridgeConnector.cs` (Unity consumer): `ProcessHandTrackingData`,
  `SendHandDataToSignBridge`, `ToggleRecognition`, `SetRecognitionState`.
* `desktop/electron/main.js`: the `recognize-sign`, `save-conversation` and
  `load-conversation` IPC handlers.
* The React Native mobile app: `signsData` and `capturePhoto`.
* The Flask integration snippet: `start_hand_tracking` (session ids).

Modelling conventions:
* Strings are `List Char`.
* The numeric landmark values on the wire are modelled as integers rendered
  as decimal numerals (the repository's own test payload consists solely of
  integer values); `parseNum` models `float.Parse` restricted to such
  numerals, including its tolerance for surrounding whitespace and a leading
  minus sign.
* C# exceptions are modelled with `Except Unit`; the `try`/`catch` block of
  `ProcessHandTrackingData` is the handler that maps any error to the
  `caught` outcome.  Unity's `StartCoroutine` runs an iterator synchronously
  up to its first `yield`, so the `float.Parse` loop of
  `SendHandDataToSignBridge` executes inside that `try` block.
* JavaScript's `Math.random()` draw is an explicit parameter `r : ℚ` with
  `0 ≤ r < 1`; a "run" of a handler is an application at one such draw.
-/

namespace SignBridge

/-! ## Decimal numerals: printing and parsing -/

/-- Digit character for a value `d < 10`. -/
def digitChar (d : ℕ) : Char := Char.ofNat (48 + d)

/-- Decimal rendering of a positive natural, most significant digit first.
The first argument is structural fuel; `fuel ≥ n` suffices. -/
def printNatAux : ℕ → ℕ → List Char
  | 0, _ => []
  | fuel + 1, n => if n = 0 then [] else printNatAux fuel (n / 10) ++ [digitChar (n % 10)]

/-- Decimal rendering of a natural number (`"0"` for zero). -/
def printNat (n : ℕ) : List Char :=
  if n = 0 then ['0'] else printNatAux (n + 1) n

/-- Decimal rendering of an integer, with a leading `'-'` when negative. -/
def printInt : ℤ → List Char
  | Int.ofNat n => printNat n
  | Int.negSucc m => '-' :: printNat (m + 1)

/-- Numeric value of a digit character. -/
def digitVal (c : Char) : ℕ := c.toNat - 48

/-- Value of a list of digit characters, most significant first. -/
def digitsVal (l : List Char) : ℕ := l.foldl (fun a c => 10 * a + digitVal c) 0

/-- Strip leading and trailing spaces (`NumberStyles.Float` permits both). -/
def trimSpaces (t : List Char) : List Char :=
  ((t.dropWhile (fun c => c = ' ')).reverse.dropWhile (fun c => c = ' ')).reverse

/-- Core numeral syntax after trimming: an optional leading `'-'`, then one
or more decimal digits. -/
def parseTrimmed : List Char → Option ℤ
  | [] => none
  | c :: rest =>
    if c = '-' then
      if rest ≠ [] ∧ rest.all Char.isDigit then some (-(digitsVal rest : ℤ)) else none
    else if (c :: rest).all Char.isDigit then some ((digitsVal (c :: rest) : ℤ)) else none

/-- Model of `float.Parse` on the integer numerals used by the bridge:
optional surrounding spaces, an optional leading `'-'`, then one or more
decimal digits.  Returns `none` (a `FormatException` in the source) on
anything else. -/
def parseNum (t : List Char) : Option ℤ :=
  parseTrimmed (trimSpaces t)

/-! ## Wire payload decoding (`SignBridgeConnector.ProcessHandTrackingData`) -/

/-- C# `data.Split(',')`: splits at every comma; adjacent commas and
boundary commas contribute empty tokens, and the empty string splits into
one empty token. -/
def splitComma : List Char → List (List Char)
  | [] => [[]]
  | c :: rest =>
    if c = ',' then [] :: splitComma rest
    else
      match splitComma rest with
      | [] => [[c]]
      | t :: ts => (c :: t) :: ts

/-- C# `data.Remove(0, 1)`: drops the first character, throwing
`ArgumentOutOfRangeException` (modelled as `Except.error`) on the empty
string. -/
def removeFirstChar : List Char → Except Unit (List Char)
  | [] => Except.error ()
  | _ :: rest => Except.ok rest

/-- C# `data.Remove(data.Length - 1, 1)`: drops the last character, throwing
on the empty string. -/
def removeLastChar (l : List Char) : Except Unit (List Char) :=
  if l = [] then Except.error () else Except.ok l.dropLast

/-- One 3D hand landmark (coordinates modelled as integers). -/
structure Landmark where
  x : ℤ
  y : ℤ
  z : ℤ
deriving DecidableEq, Repr

/-- The landmark-building loop of `SendHandDataToSignBridge`: for
`i = 0 .. 20`, when `i * 3 + 2 < points.length` the three tokens at
`i * 3`, `i * 3 + 1`, `i * 3 + 2` are parsed with `float.Parse` (a parse
failure raises, modelled as `Except.error`) and appended as one landmark.
The second argument is the current index `i`, the third the number of
iterations left. -/
def buildLandmarksAux (pts : List (List Char)) : ℕ → ℕ → Except Unit (List Landmark)
  | _, 0 => Except.ok []
  | i, k + 1 =>
    if i * 3 + 2 < pts.length then
      match parseNum (pts.getD (i * 3) []), parseNum (pts.getD (i * 3 + 1) []),
          parseNum (pts.getD (i * 3 + 2) []) with
      | some x, some y, some z =>
        (buildLandmarksAux pts (i + 1) k).map (fun l => Landmark.mk x y z :: l)
      | _, _, _ => Except.error ()
    else buildLandmarksAux pts (i + 1) k

/-- `SendHandDataToSignBridge` up to the point where the frame is posted to
the recognizer: builds the 21 landmarks from the split tokens.  Unity's
`StartCoroutine` runs this synchronously up to the first `yield`, i.e.
inside the `try` block of `ProcessHandTrackingData`, so a raised
`FormatException` is observed there. -/
def sendHandDataToSignBridge (pts : List (List Char)) : Except Unit (List Landmark) :=
  buildLandmarksAux pts 0 21

/-- Result of one `ProcessHandTrackingData` call: the gate refused the
frame (`notRecognizing`), the token count was below 63 (`dropped`), an
exception was caught and logged (`caught`), or a frame was forwarded to the
recognizer (`forwarded`). -/
inductive Outcome where
  | notRecognizing
  | dropped
  | caught
  | forwarded (frame : List Landmark)
deriving DecidableEq, Repr

/-- `SignBridgeConnector.ProcessHandTrackingData`: gate on `isRecognizing`,
strip the first and last character, split on commas, require at least 63
tokens, then build and forward the frame.  The surrounding `try`/`catch`
means every raised exception — from either `Remove` call or from the
`float.Parse` loop — yields the logged-and-dropped `caught` outcome, which
is written here at each throw point. -/
def processHandTrackingData (isRecognizing : Bool) (data : List Char) : Outcome :=
  if !isRecognizing then Outcome.notRecognizing
  else
    match removeFirstChar data with
    | Except.error _ => Outcome.caught
    | Except.ok d1 =>
      match removeLastChar d1 with
      | Except.error _ => Outcome.caught
      | Except.ok d2 =>
        if 63 ≤ (splitComma d2).length then
          match sendHandDataToSignBridge (splitComma d2) with
          | Except.error _ => Outcome.caught
          | Except.ok f => Outcome.forwarded f
        else Outcome.dropped

/-- The decode function of the bridge: the frame forwarded (if any) for a
payload processed while recognition is on. -/
def decodePayload (data : List Char) : Option (List Landmark) :=
  match processHandTrackingData true data with
  | Outcome.forwarded f => some f
  | _ => none

/-- The token list a payload is split into on the success path
(first and last character removed, then split on commas). -/
def tokensOf (data : List Char) : List (List Char) :=
  splitComma data.tail.dropLast

/-! ## Wire payload encoding

Modelled from the spec: the producer-side `encode` (the Python tracker) is
not under `src/`; per the spec the wire form is a flat ordered list of 63
numeric values, comma-separated and bracket-wrapped, matching the simulated
payload in `SignBridgeTestManager.TestHandData` (values separated by
`", "`, the whole list wrapped in `[` and `]`). -/

/-- Comma-space separated rendering of the numeric values. -/
def joinNums : List ℤ → List Char
  | [] => []
  | [v] => printInt v
  | v :: w :: rest => printInt v ++ ',' :: ' ' :: joinNums (w :: rest)

/-- Modelled from the spec: bracket-wrapped encoding of a value list. -/
def encodeVals (vals : List ℤ) : List Char :=
  '[' :: (joinNums vals ++ [']'])

/-- The 63 numeric values of a frame, in landmark order, x then y then z. -/
def flattenFrame : List Landmark → List ℤ
  | [] => []
  | lm :: rest => lm.x :: lm.y :: lm.z :: flattenFrame rest

/-- Modelled from the spec: `encode(HandFrame)` — the flat 63-value list of
the frame, bracket-wrapped. -/
def encodeFrame (f : List Landmark) : List Char :=
  encodeVals (flattenFrame f)

/-- Regroup a flat value list into landmarks, three values at a time. -/
def frameOfVals : List ℤ → List Landmark
  | x :: y :: z :: rest => Landmark.mk x y z :: frameOfVals rest
  | _ => []

/-- The landmark list the building loop produces when every token parses:
`k` landmarks taken from the value stream `vals` starting at index `i * 3`. -/
def landmarkSeq (vals : ℕ → ℤ) : ℕ → ℕ → List Landmark
  | _, 0 => []
  | i, k + 1 =>
    Landmark.mk (vals (i * 3)) (vals (i * 3 + 1)) (vals (i * 3 + 2)) ::
      landmarkSeq vals (i + 1) k

/-! ## Recognition gating (`ToggleRecognition` / `SetRecognitionState`) -/

/-- External stimuli of the connector: the toggle button,
`SetRecognitionState`, or an incoming datagram payload. -/
inductive SBEvent where
  | toggle
  | setRec (b : Bool)
  | frame (data : List Char)

/-- State transition of the `isRecognizing` flag: `ToggleRecognition`
negates it, `SetRecognitionState` sets it, frames leave it unchanged. -/
def sbStep (isRecognizing : Bool) : SBEvent → Bool
  | SBEvent.toggle => !isRecognizing
  | SBEvent.setRec b => b
  | SBEvent.frame _ => isRecognizing

/-- Number of recognizer (matcher) invocations an event triggers: a frame
is posted to `/api/recognize/advanced` exactly when
`ProcessHandTrackingData` forwards it. -/
def matcherCalls (isRecognizing : Bool) : SBEvent → ℕ
  | SBEvent.frame d =>
    match processHandTrackingData isRecognizing d with
    | Outcome.forwarded _ => 1
    | _ => 0
  | _ => 0

/-- Run a sequence of events from a given gate state, returning the final
state and the total number of matcher invocations. -/
def sbRun : Bool → List SBEvent → Bool × ℕ
  | s, [] => (s, 0)
  | s, e :: es =>
    let r := sbRun (sbStep s e) es
    (r.1, matcherCalls s e + r.2)

/-- The gate state observed at each event of a run. -/
def statesAlong : Bool → List SBEvent → List Bool
  | _, [] => []
  | s, e :: es => s :: statesAlong (sbStep s e) es

/-- Whether an event is a datagram that decodes to a valid frame. -/
def isForwardingEvent : SBEvent → Bool
  | SBEvent.frame d => (decodePayload d).isSome
  | _ => false

/-! ## Session identifiers (`start_hand_tracking`) -/

/-- Python `int()` on a nonnegative-or-negative rational: truncation toward
zero, as in `int(time.time())`. -/
def pyInt (q : ℚ) : ℤ :=
  q.num.tdiv q.den

/-- `start_hand_tracking`: the session id `f"ht_{int(time.time())}"` minted
at time `t` (seconds, as a rational). -/
def sessionIdAt (t : ℚ) : List Char :=
  'h' :: 't' :: '_' :: printInt (pyInt t)

/-- The connector's session-relevant state: a single current session id. -/
structure ConnectorState where
  currentSessionId : List Char
deriving DecidableEq, Repr

/-- `StartLearningSession` stores the id returned by the backend as the one
current session id, replacing any prior id. -/
def startLearningSession (newId : List Char) (_st : ConnectorState) : ConnectorState :=
  ⟨newId⟩

/-! ## The simulated sign matcher (`recognize-sign` handler, `capturePhoto`) -/

/-- One entry of the fixed sign lists (name, description, confidence). -/
structure MockSign where
  name : String
  description : String
  confidence : ℚ
deriving DecidableEq, Repr

/-- The `mockSigns` array of the Electron `recognize-sign` handler. -/
def mockSigns : List MockSign :=
  [⟨"hello", "Wave hand in greeting motion", 9/10⟩,
   ⟨"yes", "Make fist and nod up and down", 9/10⟩,
   ⟨"no", "Index finger shakes side to side", 85/100⟩,
   ⟨"thank_you", "Flat hand touches chin and moves forward", 85/100⟩,
   ⟨"please", "Flat hand circles on chest", 85/100⟩]

/-- The successful result object of the `recognize-sign` handler. -/
structure RecognizeOk where
  sign : String
  confidence : ℚ
  description : String
  aiEnabled : Bool
deriving DecidableEq, Repr

/-- An IPC handler reply: `success: true` with a result, or
`success: false` with an error message. -/
inductive RecognizeResult where
  | ok (r : RecognizeOk)
  | err
deriving DecidableEq, Repr

/-- The Electron `recognize-sign` handler: ignores `imageData` and picks
`mockSigns[Math.floor(Math.random() * mockSigns.length)]`; the random draw
is the explicit parameter `r`.  An out-of-range index would dereference
`undefined` and land in the `catch` branch (`err`). -/
def recognizeSignHandler (_imageData : Option String) (r : ℚ) : RecognizeResult :=
  match mockSigns[(⌊r * (mockSigns.length : ℚ)⌋).toNat]? with
  | some s => RecognizeResult.ok ⟨s.name, s.confidence, s.description, true⟩
  | none => RecognizeResult.err

/-- The `signsData` array of the React Native mobile app. -/
def signsData : List MockSign :=
  [⟨"hello", "Wave hand in greeting motion", 9/10⟩,
   ⟨"yes", "Make fist and nod up and down", 9/10⟩,
   ⟨"no", "Index finger shakes side to side", 85/100⟩,
   ⟨"thank_you", "Flat hand touches chin and moves forward", 85/100⟩,
   ⟨"please", "Flat hand circles on chest", 85/100⟩,
   ⟨"sorry", "Closed fist circles on chest", 8/10⟩,
   ⟨"help", "Closed fist taps on open palm", 85/100⟩,
   ⟨"water", "W handshape taps chin", 8/10⟩,
   ⟨"food", "Fingertips touch mouth", 85/100⟩,
   ⟨"bathroom", "T handshape shakes", 8/10⟩,
   ⟨"love", "Hands form heart shape", 9/10⟩,
   ⟨"happy", "Both hands move up with smile", 8/10⟩,
   ⟨"sad", "Hands move down with frown", 8/10⟩,
   ⟨"angry", "Fist shakes", 85/100⟩,
   ⟨"surprised", "Hands move up quickly", 8/10⟩,
   ⟨"tired", "Hands on face, eyes closed", 8/10⟩,
   ⟨"hungry", "Hand moves to mouth", 85/100⟩,
   ⟨"thirsty", "Hand moves to throat", 85/100⟩,
   ⟨"emergency", "Hand waves frantically", 9/10⟩,
   ⟨"stop", "Hand forms stop sign", 95/100⟩]

/-- The mobile `capturePhoto` recognition step: picks
`signsData[Math.floor(Math.random() * signsData.length)]` independently of
the captured photo; the random draw is the explicit parameter `r`. -/
def capturePhotoSign (r : ℚ) : Option MockSign :=
  signsData[(⌊r * (signsData.length : ℚ)⌋).toNat]?

/-! ## Conversations: `JSON.stringify`/`JSON.parse` and the save/load handlers

The `save-conversation` handler writes `JSON.stringify(conversationData,
null, 2)` to the dialog-chosen path; `load-conversation` reads a file and
returns `JSON.parse` of its contents.  JSON-serializable values are the
`Json` type below; numbers are modelled as integers and string escapes
cover the quote, backslash and the common control characters (the
`\uXXXX` escapes of rarer control characters are outside the model). -/

/-- A JSON-serializable JavaScript value. -/
inductive Json where
  | null
  | bool (b : Bool)
  | num (n : ℤ)
  | str (s : List Char)
  | arr (elems : List Json)
  | obj (members : List (List Char × Json))

/-- The opening-brace character (written via its code point). -/
def lbrace : Char := Char.ofNat 123

/-- The closing-brace character (written via its code point). -/
def rbrace : Char := Char.ofNat 125

/-- JSON string escaping as `JSON.stringify` performs it for the quote,
backslash, newline, tab and carriage-return characters. -/
def escapeChar (c : Char) : List Char :=
  if c = '"' then ['\\', '"']
  else if c = '\\' then ['\\', '\\']
  else if c = '\n' then ['\\', 'n']
  else if c = '\t' then ['\\', 't']
  else if c = '\r' then ['\\', 'r']
  else [c]

def escapeStr : List Char → List Char
  | [] => []
  | c :: rest => escapeChar c ++ escapeStr rest

/-- A JSON string literal: quoted and escaped. -/
def printStr (s : List Char) : List Char :=
  '"' :: (escapeStr s ++ ['"'])

/-- The indentation emitted for nesting depth `d` by
`JSON.stringify(_, null, 2)`. -/
def ind (d : ℕ) : List Char := List.replicate (2 * d) ' '

mutual

/-- `JSON.stringify(v, null, 2)` at nesting depth `d`. -/
def printJson : ℕ → Json → List Char
  | _, Json.null => ['n', 'u', 'l', 'l']
  | _, Json.bool true => ['t', 'r', 'u', 'e']
  | _, Json.bool false => ['f', 'a', 'l', 's', 'e']
  | _, Json.num n => printInt n
  | _, Json.str s => printStr s
  | _, Json.arr [] => ['[', ']']
  | d, Json.arr (e :: es) =>
    '[' :: '\n' :: (printItems (d + 1) e es ++ ('\n' :: (ind d ++ [']'])))
  | _, Json.obj [] => [lbrace, rbrace]
  | d, Json.obj (m :: ms) =>
    lbrace :: '\n' :: (printMembers (d + 1) m ms ++ ('\n' :: (ind d ++ [rbrace])))
termination_by d v => sizeOf v

/-- The element lines of a nonempty array, `",\n"`-separated, each
indented. -/
def printItems : ℕ → Json → List Json → List Char
  | d, e, [] => ind d ++ printJson d e
  | d, e, e2 :: es =>
    ind d ++ (printJson d e ++ (',' :: '\n' :: printItems d e2 es))
termination_by d e es => 1 + sizeOf e + sizeOf es

/-- The member lines of a nonempty object, `",\n"`-separated, each
`"key": value`, each indented. -/
def printMembers : ℕ → (List Char × Json) → List (List Char × Json) → List Char
  | d, (k, v), [] => ind d ++ (printStr k ++ (':' :: ' ' :: printJson d v))
  | d, (k, v), m2 :: ms =>
    ind d ++ (printStr k ++ (':' :: ' ' :: printJson d v)) ++
      (',' :: '\n' :: printMembers d m2 ms)
termination_by d m ms => 1 + sizeOf m + sizeOf ms

end

/-- JSON whitespace. -/
def isWsChar (c : Char) : Bool :=
  c == ' ' || c == '\n' || c == '\t' || c == '\r'

def skipWs (l : List Char) : List Char := l.dropWhile isWsChar

/-- Inverse of `escapeChar` on the escaped letter. -/
def unescapeChar (c : Char) : Option Char :=
  if c = '"' then some '"'
  else if c = '\\' then some '\\'
  else if c = 'n' then some '\n'
  else if c = 't' then some '\t'
  else if c = 'r' then some '\r'
  else none

/-- Parse a JSON string body after the opening quote, up to and including
the closing quote. -/
def parseStringBody : List Char → Option (List Char × List Char)
  | [] => none
  | c :: rest =>
    if c = '"' then some ([], rest)
    else if c = '\\' then
      match rest with
      | [] => none
      | e :: rest2 =>
        match unescapeChar e, parseStringBody rest2 with
        | some u, some (body, r) => some (u :: body, r)
        | _, _ => none
    else
      match parseStringBody rest with
      | some (body, r) => some (c :: body, r)
      | none => none

/-- Parse a JSON number token (integer form): optional minus, then a
maximal run of digits. -/
def parseNumTok (l : List Char) : Option (ℤ × List Char) :=
  match l with
  | [] => none
  | c :: rest =>
    if c = '-' then
      if rest.takeWhile Char.isDigit = [] then none
      else some (-(digitsVal (rest.takeWhile Char.isDigit) : ℤ), rest.dropWhile Char.isDigit)
    else
      if (c :: rest).takeWhile Char.isDigit = [] then none
      else some ((digitsVal ((c :: rest).takeWhile Char.isDigit) : ℤ),
        (c :: rest).dropWhile Char.isDigit)

mutual

/-- Recursive-descent JSON value parser; the first argument is fuel. -/
def parseVal : ℕ → List Char → Option (Json × List Char)
  | 0, _ => none
  | fuel + 1, l =>
    match skipWs l with
    | [] => none
    | c :: rest =>
      if c = 'n' then
        match rest with
        | 'u' :: 'l' :: 'l' :: r => some (Json.null, r)
        | _ => none
      else if c = 't' then
        match rest with
        | 'r' :: 'u' :: 'e' :: r => some (Json.bool true, r)
        | _ => none
      else if c = 'f' then
        match rest with
        | 'a' :: 'l' :: 's' :: 'e' :: r => some (Json.bool false, r)
        | _ => none
      else if c = '"' then
        match parseStringBody rest with
        | some (s, r) => some (Json.str s, r)
        | none => none
      else if c = '[' then
        match skipWs rest with
        | [] => none
        | c2 :: r2 =>
          if c2 = ']' then some (Json.arr [], r2)
          else
            match parseItems fuel (c2 :: r2) with
            | some (es, r3) => some (Json.arr es, r3)
            | none => none
      else if c = lbrace then
        match skipWs rest with
        | [] => none
        | c2 :: r2 =>
          if c2 = rbrace then some (Json.obj [], r2)
          else
            match parseMembers fuel (c2 :: r2) with
            | some (ms, r3) => some (Json.obj ms, r3)
            | none => none
      else
        match parseNumTok (c :: rest) with
        | some (n, r) => some (Json.num n, r)
        | none => none

/-- Parse the comma-separated elements of an array up to and including the
closing bracket. -/
def parseItems : ℕ → List Char → Option (List Json × List Char)
  | 0, _ => none
  | fuel + 1, l =>
    match parseVal fuel l with
    | none => none
    | some (v, r) =>
      match skipWs r with
      | [] => none
      | c :: r2 =>
        if c = ',' then
          match parseItems fuel r2 with
          | some (vs, r3) => some (v :: vs, r3)
          | none => none
        else if c = ']' then some ([v], r2)
        else none

/-- Parse the comma-separated members of an object up to and including the
closing brace. -/
def parseMembers : ℕ → List Char → Option (List (List Char × Json) × List Char)
  | 0, _ => none
  | fuel + 1, l =>
    match skipWs l with
    | [] => none
    | c :: rest =>
      if c = '"' then
        match parseStringBody rest with
        | none => none
        | some (k, r) =>
          match skipWs r with
          | [] => none
          | c2 :: r2 =>
            if c2 = ':' then
              match parseVal fuel r2 with
              | none => none
              | some (v, r3) =>
                match skipWs r3 with
                | [] => none
                | c3 :: r4 =>
                  if c3 = ',' then
                    match parseMembers fuel r4 with
                    | some (ms, r5) => some ((k, v) :: ms, r5)
                    | none => none
                  else if c3 = rbrace then some ([(k, v)], r4)
                  else none
            else none
      else none

end

/-- `JSON.parse`: parse one value, insist nothing but whitespace follows. -/
def parseJson (l : List Char) : Option Json :=
  match parseVal (l.length + 1) l with
  | some (v, r) => if skipWs r = [] then some v else none
  | none => none

/-- `JSON.stringify(conversationData, null, 2)` as written by the
`save-conversation` handler. -/
def stringifyConversation (v : Json) : List Char := printJson 0 v

/-- The text that separates one array element from what follows it: either
the separator and the next elements, or the closing line. -/
def itemsTail (d : ℕ) (es : List Json) (Z : List Char) : List Char :=
  match es with
  | [] => Z
  | e2 :: es' => ',' :: '\n' :: (printItems d e2 es' ++ Z)

/-- The text that separates one object member from what follows it. -/
def membersTail (d : ℕ) (ms : List (List Char × Json)) (Z : List Char) : List Char :=
  match ms with
  | [] => Z
  | m2 :: ms' => ',' :: '\n' :: (printMembers d m2 ms' ++ Z)

/-- Whether the remainder cannot extend a numeral (used to state the
printer/parser inversion). -/
def headNotDigit : List Char → Bool
  | [] => true
  | c :: _ => !c.isDigit

mutual

/-- Fuel adequate for parsing a printed value. -/
def jsize : Json → ℕ
  | Json.null => 1
  | Json.bool _ => 1
  | Json.num _ => 1
  | Json.str _ => 1
  | Json.arr [] => 1
  | Json.arr (e :: es) => 1 + jsizeItems e es
  | Json.obj [] => 1
  | Json.obj (m :: ms) => 1 + jsizeMembers m ms
termination_by v => sizeOf v

def jsizeItems : Json → List Json → ℕ
  | e, [] => 1 + jsize e
  | e, e2 :: es => 1 + jsize e + jsizeItems e2 es
termination_by e es => 1 + sizeOf e + sizeOf es

def jsizeMembers : (List Char × Json) → List (List Char × Json) → ℕ
  | (k, v), [] => 1 + jsize v
  | (k, v), m2 :: ms => 1 + jsize v + jsizeMembers m2 ms
termination_by m ms => 1 + sizeOf m + sizeOf ms

end

/-- The file system visible to the Electron main process: an association of
paths to file contents, most recent write first. -/
abbrev FileSystem := List (List Char × List Char)

/-- `fs.writeFileSync`. -/
def writeFile (path content : List Char) (fs : FileSystem) : FileSystem :=
  (path, content) :: fs

/-- `fs.readFileSync` (`none` models the thrown `ENOENT`). -/
def readFile (path : List Char) : FileSystem → Option (List Char)
  | [] => none
  | (p, c) :: rest => if p = path then some c else readFile path rest

/-- Reply of the `save-conversation` handler: the dialog outcome is the
explicit `dialogChoice` argument (`none` = user cancelled). -/
inductive SaveResult where
  | saved (filePath : List Char)
  | cancelled

/-- The `save-conversation` handler: on a non-cancelled dialog, write the
pretty-printed conversation to the chosen path and report success. -/
def saveConversation (dialogChoice : Option (List Char)) (conv : Json)
    (fs : FileSystem) : SaveResult × FileSystem :=
  match dialogChoice with
  | none => (SaveResult.cancelled, fs)
  | some path => (SaveResult.saved path, writeFile path (stringifyConversation conv) fs)

/-- Reply of the `load-conversation` handler. -/
inductive LoadResult where
  | ok (conversation : Json)
  | err

/-- The `load-conversation` handler: read the file and `JSON.parse` it;
any exception lands in the `catch` branch (`err`). -/
def loadConversation (fs : FileSystem) (path : List Char) : LoadResult :=
  match readFile path fs with
  | none => LoadResult.err
  | some content =>
    match parseJson content with
    | some conv => LoadResult.ok conv
    | none => LoadResult.err

theorem digitChar_isDigit {d : ℕ} (h : d < 10) : (digitChar d).isDigit = true := by
  interval_cases d <;> decide

theorem digitVal_digitChar {d : ℕ} (h : d < 10) : digitVal (digitChar d) = d := by
  interval_cases d <;> decide

theorem printNatAux_all_digits : ∀ fuel n, n ≤ fuel →
    ∀ c ∈ printNatAux fuel n, c.isDigit = true := by
  intro fuel
  induction fuel with
  | zero => intro n hn c hc; simp [printNatAux] at hc
  | succ f ih =>
    intro n hn c hc
    by_cases h0 : n = 0
    · simp [printNatAux, h0] at hc
    · rw [printNatAux, if_neg h0] at hc
      rcases List.mem_append.mp hc with h | h
      · exact ih (n / 10) (by omega) c h
      · rcases List.mem_singleton.mp h with rfl
        exact digitChar_isDigit (Nat.mod_lt _ (by norm_num))

theorem printNat_all_digits (n : ℕ) : ∀ c ∈ printNat n, c.isDigit = true := by
  intro c hc
  unfold printNat at hc
  by_cases h0 : n = 0
  · simp [h0] at hc; simp [hc]
  · rw [if_neg h0] at hc
    exact printNatAux_all_digits (n + 1) n (by omega) c hc

theorem printNatAux_foldl : ∀ fuel n, n ≤ fuel → ∀ a : ℕ,
    (printNatAux fuel n).foldl (fun a c => 10 * a + digitVal c) a =
      a * 10 ^ (printNatAux fuel n).length + n := by
  intro fuel
  induction fuel with
  | zero =>
    intro n hn a
    interval_cases n
    simp [printNatAux]
  | succ f ih =>
    intro n hn a
    by_cases h0 : n = 0
    · simp [printNatAux, h0]
    · rw [printNatAux, if_neg h0]
      rw [List.foldl_append, List.length_append]
      rw [ih (n / 10) (by omega) a]
      simp only [List.foldl_cons, List.foldl_nil, List.length_cons, List.length_nil]
      rw [digitVal_digitChar (Nat.mod_lt _ (by norm_num))]
      rw [pow_succ]
      have := Nat.div_add_mod n 10
      ring_nf
      omega

theorem digitsVal_printNat (n : ℕ) : digitsVal (printNat n) = n := by
  unfold printNat digitsVal
  by_cases h0 : n = 0
  · simp [h0, digitVal]
  · rw [if_neg h0]
    rw [printNatAux_foldl (n + 1) n (by omega) 0]
    simp

theorem printNat_ne_nil (n : ℕ) : printNat n ≠ [] := by
  unfold printNat
  by_cases h0 : n = 0
  · simp [h0]
  · rw [if_neg h0, printNatAux, if_neg h0]
    simp

/-- Digit characters are not structural characters of the wire format. -/
theorem isDigit_not_structural {c : Char} (h : c.isDigit = true) :
    c ≠ ',' ∧ c ≠ ' ' ∧ c ≠ '[' ∧ c ≠ ']' ∧ c ≠ '-' := by
  simp only [Char.isDigit] at h
  rw [Bool.and_eq_true, decide_eq_true_eq, decide_eq_true_eq] at h
  refine ⟨?_, ?_, ?_, ?_, ?_⟩ <;>
    (rintro rfl; revert h; decide)

theorem dropWhile_eq_self_of_all {p : Char → Bool} :
    ∀ {l : List Char}, (∀ c ∈ l, p c = false) → l.dropWhile p = l := by
  intro l h
  cases l with
  | nil => rfl
  | cons c rest =>
    rw [List.dropWhile_cons, h c (by simp)]
    simp

/-- Lists of characters that contain no space survive the whitespace
trimming performed by `parseNum`. -/
theorem trim_eq_self {l : List Char} (h : ∀ c ∈ l, c ≠ ' ') :
    trimSpaces l = l := by
  unfold trimSpaces
  have h1 : l.dropWhile (fun c => c = ' ') = l := by
    apply dropWhile_eq_self_of_all
    intro c hc
    simp [h c hc]
  rw [h1]
  have h2 : l.reverse.dropWhile (fun c => c = ' ') = l.reverse := by
    apply dropWhile_eq_self_of_all
    intro c hc
    simp [h c (List.mem_reverse.mp hc)]
  rw [h2, List.reverse_reverse]

theorem printNat_no_space (n : ℕ) : ∀ c ∈ printNat n, c ≠ ' ' := by
  intro c hc
  exact (isDigit_not_structural (printNat_all_digits n c hc)).2.1

theorem parseTrimmed_digits {l : List Char} (hne : l ≠ [])
    (hall : ∀ c ∈ l, c.isDigit = true) :
    parseTrimmed l = some ((digitsVal l : ℤ)) := by
  cases l with
  | nil => exact absurd rfl hne
  | cons c rest =>
    have hcdig : c.isDigit = true := hall c (by simp)
    have hcne : c ≠ '-' := (isDigit_not_structural hcdig).2.2.2.2
    rw [parseTrimmed, if_neg hcne,
      if_pos (List.all_eq_true.mpr (fun x hx => hall x hx))]

theorem parseNum_printInt (z : ℤ) : parseNum (printInt z) = some z := by
  cases z with
  | ofNat n =>
    unfold parseNum printInt
    rw [trim_eq_self (printNat_no_space n),
      parseTrimmed_digits (printNat_ne_nil n) (printNat_all_digits n),
      digitsVal_printNat]
    rfl
  | negSucc m =>
    unfold parseNum printInt
    rw [trim_eq_self (by
      intro c hc
      rcases List.mem_cons.mp hc with rfl | h
      · decide
      · exact printNat_no_space (m + 1) c h)]
    have hall : (printNat (m + 1)).all Char.isDigit = true :=
      List.all_eq_true.mpr (fun c hc => printNat_all_digits (m + 1) c hc)
    rw [parseTrimmed, if_pos rfl, if_pos ⟨printNat_ne_nil (m + 1), hall⟩,
      digitsVal_printNat]
    simp [Int.negSucc_eq]

/-- `float.Parse` skips one leading space: parsing `' ' :: t` equals parsing `t`. -/
theorem parseNum_cons_space (t : List Char) : parseNum (' ' :: t) = parseNum t := by
  unfold parseNum trimSpaces
  rw [List.dropWhile_cons]
  norm_num

/-- Printing is injective: recovered from the parse round trip. -/
theorem printInt_injective : Function.Injective printInt := by
  intro a b h
  have ha := parseNum_printInt a
  have hb := parseNum_printInt b
  rw [h, hb] at ha
  exact (Option.some.inj ha).symm

theorem printInt_chars (z : ℤ) : ∀ c ∈ printInt z, c.isDigit = true ∨ c = '-' := by
  intro c hc
  cases z with
  | ofNat n => exact Or.inl (printNat_all_digits n c hc)
  | negSucc m =>
    rcases List.mem_cons.mp hc with rfl | h
    · exact Or.inr rfl
    · exact Or.inl (printNat_all_digits (m + 1) c h)

theorem printInt_no_comma (z : ℤ) : ∀ c ∈ printInt z, c ≠ ',' := by
  intro c hc
  rcases printInt_chars z c hc with h | rfl
  · exact (isDigit_not_structural h).1
  · decide

theorem printInt_no_space (z : ℤ) : ∀ c ∈ printInt z, c ≠ ' ' := by
  intro c hc
  rcases printInt_chars z c hc with h | rfl
  · exact (isDigit_not_structural h).2.1
  · decide

/-- A token that starts with `'['` never parses (`float.Parse` throws). -/
theorem parseNum_bracket_cons (t : List Char) (h : ∀ c ∈ t, c ≠ ' ') :
    parseNum ('[' :: t) = none := by
  unfold parseNum
  rw [trim_eq_self (by
    intro c hc
    rcases List.mem_cons.mp hc with rfl | hmem
    · decide
    · exact h c hmem)]
  rw [parseTrimmed, if_neg (by decide)]
  have hbr : ('[' : Char).isDigit = false := by decide
  rw [List.all_cons, hbr, Bool.false_and]
  simp

/-! ## Splitting lemmas -/

theorem splitComma_ne_nil (l : List Char) : splitComma l ≠ [] := by
  cases l with
  | nil => simp [splitComma]
  | cons c rest =>
    rw [splitComma]
    by_cases h : c = ','
    · simp [h]
    · rw [if_neg h]
      cases hs : splitComma rest <;> simp

theorem splitComma_cons_comma (rest : List Char) :
    splitComma (',' :: rest) = [] :: splitComma rest := by
  rw [splitComma, if_pos rfl]

theorem splitComma_cons_ne {c : Char} (rest : List Char) (h : c ≠ ',') :
    splitComma (c :: rest) =
      (c :: (splitComma rest).headI) :: (splitComma rest).tail := by
  rw [splitComma, if_neg h]
  cases hs : splitComma rest with
  | nil => exact absurd hs (splitComma_ne_nil rest)
  | cons t ts => simp

theorem splitComma_append_no_comma (t s : List Char) (h : ∀ c ∈ t, c ≠ ',') :
    splitComma (t ++ s) =
      (t ++ (splitComma s).headI) :: (splitComma s).tail := by
  induction t with
  | nil =>
    simp only [List.nil_append]
    cases hs : splitComma s with
    | nil => exact absurd hs (splitComma_ne_nil s)
    | cons a as => simp
  | cons c ct ih =>
    rw [List.cons_append, splitComma_cons_ne (ct ++ s) (h c (by simp)),
      ih (fun x hx => h x (by simp [hx]))]
    simp

/-- Splitting the encoded value list recovers one token per value; every
token after the first carries the leading space of the `", "` separator. -/
theorem splitComma_joinNums :
    ∀ (vs : List ℤ) (v : ℤ), splitComma (joinNums (v :: vs)) =
      printInt v :: vs.map (fun w => ' ' :: printInt w) := by
  intro vs
  induction vs with
  | nil =>
    intro v
    have := splitComma_append_no_comma (printInt v) [] (printInt_no_comma v)
    simp only [List.append_nil] at this
    rw [joinNums, this]
    simp [splitComma]
  | cons w ws ih =>
    intro v
    rw [joinNums, splitComma_append_no_comma (printInt v) _ (printInt_no_comma v),
      splitComma_cons_comma, splitComma_cons_ne _ (by decide), ih w]
    simp

/-- Pointwise parsing of the encoded token list. -/
theorem parse_spaced_get :
    ∀ (vs : List ℤ) (v : ℤ) (j : ℕ), j < vs.length + 1 →
      parseNum ((printInt v :: vs.map fun w => ' ' :: printInt w).getD j []) =
        some ((v :: vs).getD j 0) := by
  intro vs
  induction vs with
  | nil =>
    intro v j hj
    simp only [List.length_nil, Nat.zero_add] at hj
    interval_cases j
    simp [List.getD_cons_zero, parseNum_printInt]
  | cons w ws ih =>
    intro v j hj
    cases j with
    | zero => simp [List.getD_cons_zero, parseNum_printInt]
    | succ m =>
      cases m with
      | zero =>
        simp only [List.getD_cons_succ, List.map_cons, List.getD_cons_zero]
        rw [parseNum_cons_space, parseNum_printInt]
      | succ p =>
        have := ih w (p + 1) (by simpa using Nat.lt_of_succ_lt_succ hj)
        simpa only [List.getD_cons_succ, List.map_cons] using this

/-! ## The landmark-building loop -/

theorem buildLandmarksAux_ok (pts : List (List Char)) (vals : ℕ → ℤ) :
    ∀ (k i : ℕ), (i + k) * 3 ≤ pts.length →
      (∀ j, j < (i + k) * 3 → parseNum (pts.getD j []) = some (vals j)) →
      buildLandmarksAux pts i k = Except.ok (landmarkSeq vals i k) := by
  intro k
  induction k with
  | zero => intro i _ _; rfl
  | succ n ih =>
    intro i hlen hp
    rw [buildLandmarksAux, if_pos (by omega)]
    rw [hp (i * 3) (by omega), hp (i * 3 + 1) (by omega), hp (i * 3 + 2) (by omega)]
    rw [ih (i + 1) (by omega) (fun j hj => hp j (by omega))]
    rfl

theorem buildLandmarksAux_length (pts : List (List Char)) :
    ∀ (k i : ℕ) (l : List Landmark), (i + k) * 3 ≤ pts.length →
      buildLandmarksAux pts i k = Except.ok l → l.length = k := by
  intro k
  induction k with
  | zero =>
    intro i l _ h
    rw [buildLandmarksAux] at h
    cases h
    rfl
  | succ n ih =>
    intro i l hlen h
    rw [buildLandmarksAux, if_pos (by omega)] at h
    rcases hx : parseNum (pts.getD (i * 3) []) with _ | x <;> rw [hx] at h <;>
      [skip;
        (rcases hy : parseNum (pts.getD (i * 3 + 1) []) with _ | y <;> rw [hy] at h <;>
          [skip;
            (rcases hz : parseNum (pts.getD (i * 3 + 2) []) with _ | z <;> rw [hz] at h)])]
    · simp at h
    · simp at h
    · simp at h
    · rcases hb : buildLandmarksAux pts (i + 1) n with _ | l'
      · rw [hb] at h; simp [Except.map] at h
      · rw [hb] at h
        simp only [Except.map] at h
        cases h
        simp [ih (i + 1) l' (by omega) hb]

theorem buildLandmarksAux_ok_parses (pts : List (List Char)) :
    ∀ (k i : ℕ) (l : List Landmark), (i + k) * 3 ≤ pts.length →
      buildLandmarksAux pts i k = Except.ok l →
      ∀ j, i * 3 ≤ j → j < (i + k) * 3 → (parseNum (pts.getD j [])).isSome := by
  intro k
  induction k with
  | zero => intro i l _ _ j hj1 hj2; omega
  | succ n ih =>
    intro i l hlen h j hj1 hj2
    rw [buildLandmarksAux, if_pos (by omega)] at h
    rcases hx : parseNum (pts.getD (i * 3) []) with _ | x <;> rw [hx] at h <;>
      [skip;
        (rcases hy : parseNum (pts.getD (i * 3 + 1) []) with _ | y <;> rw [hy] at h <;>
          [skip;
            (rcases hz : parseNum (pts.getD (i * 3 + 2) []) with _ | z <;> rw [hz] at h)])]
    · simp at h
    · simp at h
    · simp at h
    · by_cases hj : j < (i + 1) * 3
      · have : j = i * 3 ∨ j = i * 3 + 1 ∨ j = i * 3 + 2 := by omega
        rcases this with rfl | rfl | rfl
        · rw [hx]; rfl
        · rw [hy]; rfl
        · rw [hz]; rfl
      · rcases hb : buildLandmarksAux pts (i + 1) n with _ | l'
        · rw [hb] at h; simp [Except.map] at h
        · exact ih (i + 1) l' (by omega) hb j (by omega) (by omega)

theorem buildLandmarksAux_error (pts : List (List Char)) :
    ∀ (k i j : ℕ), (i + k) * 3 ≤ pts.length →
      i * 3 ≤ j → j < (i + k) * 3 → parseNum (pts.getD j []) = none →
      buildLandmarksAux pts i k = Except.error () := by
  intro k
  induction k with
  | zero => intro i j _ hj1 hj2 _; omega
  | succ n ih =>
    intro i j hlen hj1 hj2 hnone
    rw [buildLandmarksAux, if_pos (by omega)]
    rcases hx : parseNum (pts.getD (i * 3) []) with _ | x
    · rfl
    · rcases hy : parseNum (pts.getD (i * 3 + 1) []) with _ | y
      · rfl
      · rcases hz : parseNum (pts.getD (i * 3 + 2) []) with _ | z
        · rfl
        · by_cases hj : j < (i + 1) * 3
          · exfalso
            have : j = i * 3 ∨ j = i * 3 + 1 ∨ j = i * 3 + 2 := by omega
            rcases this with rfl | rfl | rfl <;> simp_all
          · rw [ih (i + 1) j (by omega) (by omega) (by omega) hnone]
            rfl

theorem landmarkSeq_shift (vals : ℕ → ℤ) :
    ∀ (k i : ℕ), landmarkSeq vals (i + 1) k = landmarkSeq (fun j => vals (j + 3)) i k := by
  intro k
  induction k with
  | zero => intro i; rfl
  | succ n ih =>
    intro i
    rw [landmarkSeq, landmarkSeq, ih (i + 1)]
    have h1 : (i + 1) * 3 = i * 3 + 3 := by ring
    have h2 : (i + 1) * 3 + 1 = i * 3 + 1 + 3 := by ring
    have h3 : (i + 1) * 3 + 2 = i * 3 + 2 + 3 := by ring
    rw [h2, h3, h1]

theorem landmarkSeq_getD :
    ∀ (n : ℕ) (L : List ℤ), L.length = 3 * n →
      landmarkSeq (fun j => L.getD j 0) 0 n = frameOfVals L := by
  intro n
  induction n with
  | zero =>
    intro L h
    rcases L with _ | ⟨x, rest⟩
    · rfl
    · simp at h
  | succ n ih =>
    intro L h
    rcases L with _ | ⟨x, _ | ⟨y, _ | ⟨z, rest⟩⟩⟩ <;> simp only [List.length_cons, List.length_nil] at h <;>
      try omega
    rw [landmarkSeq, landmarkSeq_shift]
    have hfun : (fun j => (x :: y :: z :: rest).getD (j + 3) 0) = (fun j => rest.getD j 0) := by
      funext j
      simp [List.getD_cons_succ]
    rw [hfun, ih rest (by omega)]
    rfl

/-- Reduction of `ProcessHandTrackingData` on a nonempty-after-strip
payload: the first and last characters are gone, the rest is split and
checked for 63 tokens. -/
theorem processHTD_cons (c : Char) (rest : List Char) (hne : rest ≠ []) :
    processHandTrackingData true (c :: rest) =
      if 63 ≤ (splitComma rest.dropLast).length then
        match sendHandDataToSignBridge (splitComma rest.dropLast) with
        | Except.error _ => Outcome.caught
        | Except.ok f => Outcome.forwarded f
      else Outcome.dropped := by
  simp only [processHandTrackingData, removeFirstChar, removeLastChar, Bool.not_true,
    if_neg hne, Bool.false_eq_true, if_false]

/-- Decoding a correctly bracket-wrapped 63-value payload forwards the
frame regrouped from those values. -/
theorem decode_encodeVals (vals : List ℤ) (h : vals.length = 63) :
    decodePayload (encodeVals vals) = some (frameOfVals vals) := by
  rcases vals with _ | ⟨v, vs⟩
  · simp at h
  · have hsplit := splitComma_joinNums vs v
    have hlen : (splitComma (joinNums (v :: vs))).length = 63 := by
      rw [hsplit]
      simp only [List.length_cons, List.length_map]
      simp at h
      omega
    unfold decodePayload encodeVals
    rw [processHTD_cons '[' _ (by simp), List.dropLast_concat]
    rw [if_pos (by rw [hlen])]
    unfold sendHandDataToSignBridge
    rw [buildLandmarksAux_ok (splitComma (joinNums (v :: vs)))
      (fun j => (v :: vs).getD j 0) 21 0
      (by rw [hlen])
      (by
        intro j hj
        rw [hsplit]
        exact parse_spaced_get vs v j (by simp at h ⊢; omega))]
    rw [landmarkSeq_getD 21 (v :: vs) (by simp at h ⊢; omega)]

theorem flattenFrame_length : ∀ f : List Landmark, (flattenFrame f).length = 3 * f.length := by
  intro f
  induction f with
  | nil => rfl
  | cons lm rest ih =>
    rw [flattenFrame]
    simp only [List.length_cons, ih]
    ring

theorem frameOfVals_flattenFrame : ∀ f : List Landmark, frameOfVals (flattenFrame f) = f := by
  intro f
  induction f with
  | nil => rfl
  | cons lm rest ih =>
    rw [flattenFrame, frameOfVals, ih]

/-! ## Characterization of the decode path -/

theorem processHTD_nil : processHandTrackingData true [] = Outcome.caught := by
  simp [processHandTrackingData, removeFirstChar]

theorem processHTD_single (c : Char) :
    processHandTrackingData true [c] = Outcome.caught := by
  simp [processHandTrackingData, removeFirstChar, removeLastChar]

/-- Every forwarded frame has exactly 21 landmarks: the landmark loop runs
21 iterations and its guard holds at each one because at least 63 tokens
are present. -/
theorem forwarded_frame_length (data : List Char) (f : List Landmark)
    (h : processHandTrackingData true data = Outcome.forwarded f) : f.length = 21 := by
  rcases data with _ | ⟨c, rest⟩
  · rw [processHTD_nil] at h; cases h
  · rcases rest with _ | ⟨c2, rest2⟩
    · rw [processHTD_single] at h; cases h
    · rw [processHTD_cons c _ (by simp)] at h
      by_cases hlen : 63 ≤ (splitComma (c2 :: rest2).dropLast).length
      · rw [if_pos hlen] at h
        rcases hb : sendHandDataToSignBridge (splitComma (c2 :: rest2).dropLast) with _ | l
        · rw [hb] at h; cases h
        · rw [hb] at h
          cases h
          exact buildLandmarksAux_length _ 21 0 f (by omega) hb
      · rw [if_neg hlen] at h; cases h

/-- A payload whose first 63 tokens contain a non-parsing token is caught
(the `FormatException` of `float.Parse` lands in the `catch` block),
provided the structural path reaches the parse loop. -/
theorem decode_nonNumeric_caught (data : List Char) (h2 : 2 ≤ data.length)
    (hlen : 63 ≤ (tokensOf data).length) (j : ℕ) (hj : j < 63)
    (hnone : parseNum ((tokensOf data).getD j []) = none) :
    processHandTrackingData true data = Outcome.caught := by
  rcases data with _ | ⟨c, rest⟩
  · simp at h2
  · rcases rest with _ | ⟨c2, rest2⟩
    · simp at h2
    · rw [processHTD_cons c _ (by simp)]
      have htok : tokensOf (c :: c2 :: rest2) = splitComma (c2 :: rest2).dropLast := rfl
      rw [htok] at hlen hnone
      rw [if_pos hlen]
      rw [show sendHandDataToSignBridge (splitComma (c2 :: rest2).dropLast) = Except.error () from
        buildLandmarksAux_error _ 21 0 j (by omega) (by omega) (by omega) hnone]

theorem option_eq_some_getD {o : Option ℤ} (h : o.isSome = true) : o = some (o.getD 0) := by
  cases o
  · simp at h
  · rfl

/-- Full characterization of acceptance: a payload decodes to a frame
exactly when it has at least two characters, splits (after the two
`Remove` calls) into at least 63 tokens, and each of the first 63 tokens
parses numerically. -/
theorem decode_isSome_iff (data : List Char) :
    (decodePayload data).isSome = true ↔
      (2 ≤ data.length ∧ 63 ≤ (tokensOf data).length ∧
        ∀ j, j < 63 → (parseNum ((tokensOf data).getD j [])).isSome = true) := by
  rcases data with _ | ⟨c, rest⟩
  · rw [decodePayload, processHTD_nil]
    simp
  · rcases rest with _ | ⟨c2, rest2⟩
    · rw [decodePayload, processHTD_single]
      simp
    · have htok : tokensOf (c :: c2 :: rest2) = splitComma (c2 :: rest2).dropLast := rfl
      rw [decodePayload, processHTD_cons c _ (by simp), htok]
      by_cases hlen : 63 ≤ (splitComma (c2 :: rest2).dropLast).length
      · rw [if_pos hlen]
        rcases hb : sendHandDataToSignBridge (splitComma (c2 :: rest2).dropLast) with _ | l
        · constructor
          · intro hfalse; simp at hfalse
          · rintro ⟨-, -, hall⟩
            exfalso
            have hok := buildLandmarksAux_ok (splitComma (c2 :: rest2).dropLast)
              (fun j => (parseNum ((splitComma (c2 :: rest2).dropLast).getD j [])).getD 0) 21 0
              (by omega)
              (fun j hj => option_eq_some_getD (hall j (by omega)))
            rw [sendHandDataToSignBridge] at hb
            rw [hok] at hb
            cases hb
        · constructor
          · intro _
            refine ⟨by simp, hlen, fun j hj => ?_⟩
            exact buildLandmarksAux_ok_parses _ 21 0 l (by omega) hb j (by omega) (by omega)
          · intro _; simp
      · rw [if_neg hlen]
        constructor
        · intro hfalse; simp at hfalse
        · rintro ⟨-, hl, -⟩; exact absurd hl hlen

/-- A leading space defeats the unconditional first-character strip: the
`'['` survives, glues onto the first token, and `float.Parse` throws. -/
theorem decode_space_prefixed (vals : List ℤ) (h : vals.length = 63) :
    processHandTrackingData true (' ' :: encodeVals vals) = Outcome.caught := by
  rcases vals with _ | ⟨v, vs⟩
  · simp at h
  · have hsplit := splitComma_joinNums vs v
    unfold encodeVals
    rw [processHTD_cons ' ' _ (by simp)]
    have hdrop : ('[' :: (joinNums (v :: vs) ++ [']'])).dropLast = '[' :: joinNums (v :: vs) := by
      rw [show ('[' :: (joinNums (v :: vs) ++ [']'])) = ('[' :: joinNums (v :: vs)) ++ [']'] by simp,
        List.dropLast_concat]
    rw [hdrop]
    have hbr : splitComma ('[' :: joinNums (v :: vs)) =
        ('[' :: printInt v) :: vs.map (fun w => ' ' :: printInt w) := by
      rw [splitComma_cons_ne _ (by decide), hsplit]
      simp
    rw [hbr]
    have hlen : (('[' :: printInt v) :: vs.map (fun w => ' ' :: printInt w)).length = 63 := by
      simp only [List.length_cons, List.length_map]
      simp at h
      omega
    rw [if_pos (by omega)]
    rw [show sendHandDataToSignBridge (('[' :: printInt v) :: vs.map (fun w => ' ' :: printInt w)) =
        Except.error () from
      buildLandmarksAux_error _ 21 0 0 (by omega) (by omega) (by omega)
        (by
          rw [List.getD_cons_zero]
          exact parseNum_bracket_cons (printInt v) (printInt_no_space v))]

/-! ## Rational-number helpers for the random draw and session times -/

theorem pyInt_eq_floor {q : ℚ} (h : 0 ≤ q) : pyInt q = ⌊q⌋ := by
  unfold pyInt
  rw [Rat.floor_def]
  exact Int.tdiv_eq_ediv (Rat.num_nonneg.mpr h) (by exact_mod_cast Nat.zero_le q.den)

theorem floor_index_lt (n : ℕ) (hn : 0 < n) {r : ℚ} (h1 : r < 1) :
    (⌊r * (n : ℚ)⌋).toNat < n := by
  have hlt : ⌊r * (n : ℚ)⌋ < (n : ℤ) := by
    rw [Int.floor_lt]
    push_cast
    calc r * n < 1 * n := by
          apply mul_lt_mul_of_pos_right h1
          exact_mod_cast hn
      _ = n := one_mul _
  omega

/-! ## Evaluation of the simulated matchers at particular draws -/

theorem recognizeSignHandler_zero (img : Option String) :
    recognizeSignHandler img 0 =
      RecognizeResult.ok ⟨"hello", 9/10, "Wave hand in greeting motion", true⟩ := by
  unfold recognizeSignHandler
  rw [zero_mul, Int.floor_zero]
  simp [mockSigns]

theorem recognizeSignHandler_half (img : Option String) :
    recognizeSignHandler img (1/2) =
      RecognizeResult.ok ⟨"no", 85/100, "Index finger shakes side to side", true⟩ := by
  unfold recognizeSignHandler
  have hlen : ((mockSigns.length : ℕ) : ℚ) = 5 := by norm_num [mockSigns]
  rw [hlen]
  have hf : ⌊(1/2 : ℚ) * 5⌋ = 2 := by
    rw [show (1/2 : ℚ) * 5 = 5/2 by norm_num]
    rw [Int.floor_eq_iff]
    norm_num
  rw [hf]
  simp [mockSigns]

theorem capturePhotoSign_zero :
    capturePhotoSign 0 = some ⟨"hello", "Wave hand in greeting motion", 9/10⟩ := by
  unfold capturePhotoSign
  rw [zero_mul, Int.floor_zero]
  simp [signsData]

theorem capturePhotoSign_half :
    capturePhotoSign (1/2) = some ⟨"love", "Hands form heart shape", 9/10⟩ := by
  unfold capturePhotoSign
  have hlen : ((signsData.length : ℕ) : ℚ) = 20 := by norm_num [signsData]
  rw [hlen]
  have hf : ⌊(1/2 : ℚ) * 20⌋ = 10 := by
    rw [show (1/2 : ℚ) * 20 = 10 by norm_num]
    rw [show ((10 : ℚ)) = ((10 : ℤ) : ℚ) by norm_num, Int.floor_intCast]
  rw [hf]
  simp [signsData]

theorem recognizeSignHandler_ok (img : Option String) {r : ℚ} (h1 : r < 1) :
    ∃ s ∈ mockSigns,
      recognizeSignHandler img r = RecognizeResult.ok ⟨s.name, s.confidence, s.description, true⟩ := by
  unfold recognizeSignHandler
  have hidx : (⌊r * ((mockSigns.length : ℕ) : ℚ)⌋).toNat < mockSigns.length :=
    floor_index_lt mockSigns.length (by norm_num [mockSigns]) h1
  rw [List.getElem?_eq_getElem hidx]
  exact ⟨_, List.getElem_mem hidx, rfl⟩

theorem capturePhotoSign_ok {r : ℚ} (h1 : r < 1) :
    ∃ s ∈ signsData, capturePhotoSign r = some s := by
  unfold capturePhotoSign
  have hidx : (⌊r * ((signsData.length : ℕ) : ℚ)⌋).toNat < signsData.length :=
    floor_index_lt signsData.length (by norm_num [signsData]) h1
  rw [List.getElem?_eq_getElem hidx]
  exact ⟨_, List.getElem_mem hidx, rfl⟩

theorem mockSigns_confidence_bounds :
    ∀ s ∈ mockSigns, 0 ≤ s.confidence ∧ s.confidence ≤ 1 := by
  intro s hs
  simp only [mockSigns] at hs
  fin_cases hs <;> norm_num

theorem signsData_confidence_bounds :
    ∀ s ∈ signsData, 0 ≤ s.confidence ∧ s.confidence ≤ 1 := by
  intro s hs
  simp only [signsData] at hs
  fin_cases hs <;> norm_num

theorem mockSigns_names :
    ∀ s ∈ mockSigns, s.name = "hello" ∨ s.name = "yes" ∨ s.name = "no" ∨
      s.name = "thank_you" ∨ s.name = "please" := by
  intro s hs
  simp only [mockSigns] at hs
  fin_cases hs <;> simp

theorem matcherCalls_eq_ite (s : Bool) (e : SBEvent) :
    matcherCalls s e = if s && isForwardingEvent e then 1 else 0 := by
  cases e with
  | toggle => cases s <;> rfl
  | setRec b => cases s <;> rfl
  | frame d =>
    cases s
    · rfl
    · rcases hp : processHandTrackingData true d with _ | _ | _ | fr <;>
        simp [matcherCalls, isForwardingEvent, decodePayload, hp]

/-! ## Claim theorems -/

/-- C1 (counterexample): the claim says a payload whose numeric-value count
is not a multiple of 3 (in particular, any count other than 63) is rejected
as `MalformedFrame` and never yields a valid `HandFrame`.  The code accepts
this 64-value payload and forwards a 21-landmark frame built from its first
63 values. -/
theorem c1_counterexample :
    processHandTrackingData true (encodeVals (List.replicate 64 (0 : ℤ))) =
        Outcome.forwarded (List.replicate 21 (Landmark.mk 0 0 0)) ∧
      (tokensOf (encodeVals (List.replicate 64 (0 : ℤ)))).length = 64 := by
  exact ⟨by decide, by decide⟩

/-- C1 (amended): decoding accepts a payload exactly when, after the
unconditional strip of the first and last character, it splits into at
least 63 comma-separated tokens whose first 63 all parse numerically; the
token count is never compared against 63 or 21 exactly.  Every forwarded
frame has exactly 21 landmarks, taken from the first 63 tokens. -/
theorem c1_decode_acceptance :
    (∀ data : List Char, (decodePayload data).isSome = true ↔
      (2 ≤ data.length ∧ 63 ≤ (tokensOf data).length ∧
        ∀ j, j < 63 → (parseNum ((tokensOf data).getD j [])).isSome = true)) ∧
    (∀ (data : List Char) (f : List Landmark),
      decodePayload data = some f → f.length = 21) := by
  constructor
  · exact decode_isSome_iff
  · intro data f h
    apply forwarded_frame_length data f
    rcases hp : processHandTrackingData true data with _ | _ | _ | fr <;>
      rw [decodePayload, hp] at h <;> simp at h
    rw [h]

/-- C1 (witness): the amended acceptance theorem applied to one concrete
accepted payload. -/
theorem c1_witness : (List.replicate 21 (Landmark.mk 5 5 5)).length = 21 :=
  c1_decode_acceptance.2 (encodeVals (List.replicate 63 (5 : ℤ)))
    (List.replicate 21 (Landmark.mk 5 5 5)) (by decide)

/-- C2: the decode path never surfaces an exception — a payload with a
non-numeric token among its first 63 values is caught as a whole (the
`FormatException` raised by `float.Parse` inside the synchronously started
coroutine lands in the `try`/`catch` of `ProcessHandTrackingData`), and no
partial frame is ever forwarded: every forwarded frame has exactly 21
landmarks. -/
theorem c2_no_partial_frames :
    (∀ (data : List Char) (f : List Landmark),
      processHandTrackingData true data = Outcome.forwarded f → f.length = 21) ∧
    (∀ data : List Char, 2 ≤ data.length → 63 ≤ (tokensOf data).length →
      ∀ j, j < 63 → parseNum ((tokensOf data).getD j []) = none →
      processHandTrackingData true data = Outcome.caught) :=
  ⟨forwarded_frame_length,
    fun data h2 hlen j hj hnone => decode_nonNumeric_caught data h2 hlen j hj hnone⟩

set_option maxRecDepth 8000 in
/-- C2 (witness): one valid frame of 21 landmarks, and one payload whose
first token is the non-numeric `"x"`, which is caught as a whole. -/
theorem c2_witness :
    (List.replicate 21 (Landmark.mk 1 2 3)).length = 21 ∧
      processHandTrackingData true
        ('[' :: 'x' :: ',' :: ' ' :: (joinNums (List.replicate 62 (0 : ℤ)) ++ [']'])) =
        Outcome.caught :=
  ⟨c2_no_partial_frames.1 (encodeVals (flattenFrame (List.replicate 21 (Landmark.mk 1 2 3))))
      (List.replicate 21 (Landmark.mk 1 2 3)) (by decide),
    c2_no_partial_frames.2 _ (by decide) (by decide) 0 (by decide) (by decide)⟩

/-- C3 (counterexample): the claim says two runs of the matcher on an
identical frame return the identical candidate.  Two runs that draw the
random values `0` and `1/2` (both legal values of `Math.random()`) return
different candidates on the identical input, for both the Electron handler
and the mobile `capturePhoto`. -/
theorem c3_counterexample :
    ((0 : ℚ) ≤ 0 ∧ (0 : ℚ) < 1 ∧ (0 : ℚ) ≤ 1/2 ∧ (1/2 : ℚ) < 1) ∧
      recognizeSignHandler (some "frame") 0 ≠ recognizeSignHandler (some "frame") (1/2) ∧
      capturePhotoSign 0 ≠ capturePhotoSign (1/2) := by
  refine ⟨by norm_num, ?_, ?_⟩
  · intro h
    rw [recognizeSignHandler_zero, recognizeSignHandler_half] at h
    injection h with h1
    injection h1 with hname hrest
    exact absurd hname (by decide)
  · intro h
    rw [capturePhotoSign_zero, capturePhotoSign_half] at h
    injection h with h1
    injection h1 with hname hrest
    exact absurd hname (by decide)

/-- C3 (amended): the matcher's result is a function of the random draw
alone — runs with equal draws agree for every pair of input frames — but
two draws in `[0, 1)` can produce different candidates for the identical
frame, so the result is not determined by frame and vocabulary. -/
theorem c3_match_determined_by_draw :
    (∀ (img img' : Option String) (r : ℚ),
      recognizeSignHandler img r = recognizeSignHandler img' r) ∧
    (∀ img : Option String,
      recognizeSignHandler img 0 ≠ recognizeSignHandler img (1/2)) ∧
    capturePhotoSign 0 ≠ capturePhotoSign (1/2) := by
  refine ⟨fun _ _ _ => rfl, fun img h => ?_, fun h => ?_⟩
  · rw [recognizeSignHandler_zero, recognizeSignHandler_half] at h
    injection h with h1
    injection h1 with hname hrest
    exact absurd hname (by decide)
  · rw [capturePhotoSign_zero, capturePhotoSign_half] at h
    injection h with h1
    injection h1 with hname hrest
    exact absurd hname (by decide)

/-- C4: no frame reaches the matcher while recognition is off — an event
processed in the non-recognizing state triggers zero matcher invocations;
toggling recognition on and then delivering one valid frame triggers
exactly one; and over any event sequence the total number of matcher
invocations equals the number of valid frames delivered while the state
was recognizing. -/
theorem c4_session_gating :
    (∀ e : SBEvent, matcherCalls false e = 0) ∧
    (∀ (data : List Char) (f : List Landmark), decodePayload data = some f →
      (sbRun false [SBEvent.toggle, SBEvent.frame data]).2 = 1) ∧
    (∀ (s : Bool) (es : List SBEvent),
      (sbRun s es).2 =
        ((statesAlong s es).zip es).countP (fun p => p.1 && isForwardingEvent p.2)) := by
  refine ⟨fun e => by cases e <;> rfl, ?_, ?_⟩
  · intro data f h
    have hp : processHandTrackingData true data = Outcome.forwarded f := by
      rcases hp : processHandTrackingData true data with _ | _ | _ | fr <;>
        rw [decodePayload, hp] at h <;> simp at h
      rw [h]
    simp [sbRun, sbStep, matcherCalls, hp]
  · intro s es
    induction es generalizing s with
    | nil => rfl
    | cons e es ih =>
      rw [sbRun]
      simp only [statesAlong, List.zip_cons_cons, List.countP_cons, ih (sbStep s e)]
      rw [matcherCalls_eq_ite]
      exact Nat.add_comm _ _

/-- C4 (witness): toggling on and delivering one concrete valid payload
yields exactly one matcher invocation. -/
theorem c4_witness :
    (sbRun false [SBEvent.toggle,
      SBEvent.frame (encodeVals (List.replicate 63 (7 : ℤ)))]).2 = 1 :=
  c4_session_gating.2.1 (encodeVals (List.replicate 63 (7 : ℤ)))
    (List.replicate 21 (Landmark.mk 7 7 7)) (by decide)

/-- C5: decoding the encoded wire form of any valid 21-landmark frame
yields back the identical frame. -/
theorem c5_decode_encode_roundtrip (f : List Landmark) (h : f.length = 21) :
    decodePayload (encodeFrame f) = some f := by
  unfold encodeFrame
  rw [decode_encodeVals (flattenFrame f) (by rw [flattenFrame_length, h]),
    frameOfVals_flattenFrame]

/-- C5 (witness): the round trip evaluated on one concrete frame. -/
theorem c5_witness :
    decodePayload (encodeFrame (List.replicate 21 (Landmark.mk 1 2 3))) =
      some (List.replicate 21 (Landmark.mk 1 2 3)) :=
  c5_decode_encode_roundtrip (List.replicate 21 (Landmark.mk 1 2 3)) (by decide)

/-- C6 (counterexample): the claim says bracket-wrapped and unwrapped
payloads with the same 63 numeric values decode to the same frame.  The
bracket-wrapped form decodes to the frame, but the unwrapped form of the
very same values is rejected: the code unconditionally removes its first
and last characters, mutilating the first and last numerals. -/
theorem c6_counterexample :
    decodePayload (encodeVals (List.replicate 63 (5 : ℤ))) =
        some (List.replicate 21 (Landmark.mk 5 5 5)) ∧
      decodePayload (joinNums (List.replicate 63 (5 : ℤ))) = none := by
  exact ⟨by decide, by decide⟩

/-- C6 (amended): decoding recovers the intended frame exactly for
payloads whose first and last characters are the structural delimiters
themselves (bracket-wrapped, no surrounding whitespace); a payload with a
leading space keeps its `'['`, which glues onto the first numeral and is
rejected. -/
theorem c6_delimiter_strip (vals : List ℤ) (h : vals.length = 63) :
    decodePayload (encodeVals vals) = some (frameOfVals vals) ∧
      processHandTrackingData true (' ' :: encodeVals vals) = Outcome.caught :=
  ⟨decode_encodeVals vals h, decode_space_prefixed vals h⟩

/-- C6 (witness): the amended theorem evaluated on one concrete value
list. -/
theorem c6_witness :
    decodePayload (encodeVals (List.replicate 63 (9 : ℤ))) =
        some (frameOfVals (List.replicate 63 (9 : ℤ))) ∧
      processHandTrackingData true (' ' :: encodeVals (List.replicate 63 (9 : ℤ))) =
        Outcome.caught :=
  c6_delimiter_strip (List.replicate 63 (9 : ℤ)) (by decide)

/-- C7 (counterexample): the claim says a second `start()` always mints an
id distinct from the prior one.  Two starts at times 100.2s and 100.7s —
distinct times inside the same wall-clock second — mint the identical id
`"ht_100"`, because the id is derived from `int(time.time())`. -/
theorem c7_counterexample :
    sessionIdAt (501/5) = sessionIdAt (1007/10) ∧ ((501 : ℚ)/5) ≠ (1007 : ℚ)/10 := by
  constructor
  · unfold sessionIdAt
    have h1 : pyInt (501/5) = 100 := by
      rw [pyInt_eq_floor (by norm_num), Int.floor_eq_iff]
      norm_num
    have h2 : pyInt (1007/10) = 100 := by
      rw [pyInt_eq_floor (by norm_num), Int.floor_eq_iff]
      norm_num
    rw [h1, h2]
  · norm_num

/-- C7 (amended): `StartLearningSession` keeps a single current session id
and replaces it on every start (so at most one session is current), and
two starts mint distinct ids exactly when their whole-second timestamps
`int(time.time())` differ — starts within the same second collide. -/
theorem c7_session_id_collision :
    (∀ (newId : List Char) (st : ConnectorState),
      (startLearningSession newId st).currentSessionId = newId) ∧
    (∀ t1 t2 : ℚ, sessionIdAt t1 = sessionIdAt t2 ↔ pyInt t1 = pyInt t2) := by
  refine ⟨fun _ _ => rfl, fun t1 t2 => ⟨fun h => ?_, fun h => ?_⟩⟩
  · unfold sessionIdAt at h
    injection h with h1 h
    injection h with h2 h
    injection h with h3 h
    exact printInt_injective h
  · unfold sessionIdAt
    rw [h]

/-- C8: every candidate produced by either simulated matcher carries a
confidence inside the closed unit interval. -/
theorem c8_confidence_unit_interval :
    (∀ (img : Option String) (r : ℚ), 0 ≤ r → r < 1 →
      ∃ s, recognizeSignHandler img r = RecognizeResult.ok s ∧
        0 ≤ s.confidence ∧ s.confidence ≤ 1) ∧
    (∀ r : ℚ, 0 ≤ r → r < 1 →
      ∃ m, capturePhotoSign r = some m ∧ 0 ≤ m.confidence ∧ m.confidence ≤ 1) := by
  constructor
  · intro img r _ h1
    obtain ⟨s, hs, heq⟩ := recognizeSignHandler_ok img h1
    exact ⟨_, heq, (mockSigns_confidence_bounds s hs).1, (mockSigns_confidence_bounds s hs).2⟩
  · intro r _ h1
    obtain ⟨s, hs, heq⟩ := capturePhotoSign_ok h1
    exact ⟨s, heq, signsData_confidence_bounds s hs⟩

/-- C8 (witness): the bounds at the concrete draw `0`. -/
theorem c8_witness :
    (∃ s, recognizeSignHandler none 0 = RecognizeResult.ok s ∧
        0 ≤ s.confidence ∧ s.confidence ≤ 1) ∧
      ∃ m, capturePhotoSign 0 = some m ∧ 0 ≤ m.confidence ∧ m.confidence ≤ 1 :=
  ⟨c8_confidence_unit_interval.1 none 0 (le_refl 0) (by norm_num),
    c8_confidence_unit_interval.2 0 (le_refl 0) (by norm_num)⟩

/-- C10: the `recognize-sign` handler is total and input-independent — its
result never depends on `imageData`, it always returns success with a sign
drawn from the five fixed entries, and its error branch is unreachable for
every legal random draw. -/
theorem c10_recognize_total_input_independent :
    (∀ (img img' : Option String) (r : ℚ),
      recognizeSignHandler img r = recognizeSignHandler img' r) ∧
    (∀ (img : Option String) (r : ℚ), 0 ≤ r → r < 1 →
      ∃ s, recognizeSignHandler img r = RecognizeResult.ok s ∧
        (s.sign = "hello" ∨ s.sign = "yes" ∨ s.sign = "no" ∨
          s.sign = "thank_you" ∨ s.sign = "please")) ∧
    (∀ (img : Option String) (r : ℚ), 0 ≤ r → r < 1 →
      recognizeSignHandler img r ≠ RecognizeResult.err) := by
  refine ⟨fun _ _ _ => rfl, ?_, ?_⟩
  · intro img r _ h1
    obtain ⟨s, hs, heq⟩ := recognizeSignHandler_ok img h1
    exact ⟨_, heq, mockSigns_names s hs⟩
  · intro img r _ h1 hcontra
    obtain ⟨s, hs, heq⟩ := recognizeSignHandler_ok img h1
    rw [heq] at hcontra
    cases hcontra

/-! ## JSON printer/parser inversion toolkit -/

theorem isDigit_ne_special {c : Char} (h : c.isDigit = true) :
    c ≠ 'n' ∧ c ≠ 't' ∧ c ≠ 'f' ∧ c ≠ '"' ∧ c ≠ '[' ∧ c ≠ lbrace ∧
      c ≠ ']' ∧ c ≠ rbrace ∧ c ≠ '-' ∧ c ≠ ' ' ∧ c ≠ '\n' ∧ c ≠ '\t' ∧ c ≠ '\r' := by
  simp only [Char.isDigit] at h
  rw [Bool.and_eq_true, decide_eq_true_eq, decide_eq_true_eq] at h
  refine ⟨?_, ?_, ?_, ?_, ?_, ?_, ?_, ?_, ?_, ?_, ?_, ?_, ?_⟩ <;>
    (rintro rfl; revert h; decide)

theorem isWsChar_false {c : Char} (h1 : c ≠ ' ') (h2 : c ≠ '\n') (h3 : c ≠ '\t')
    (h4 : c ≠ '\r') : isWsChar c = false := by
  simp [isWsChar, h1, h2, h3, h4]

theorem isWsChar_false_of_digit {c : Char} (h : c.isDigit = true) : isWsChar c = false :=
  isWsChar_false (isDigit_ne_special h).2.2.2.2.2.2.2.2.2.1
    (isDigit_ne_special h).2.2.2.2.2.2.2.2.2.2.1
    (isDigit_ne_special h).2.2.2.2.2.2.2.2.2.2.2.1
    (isDigit_ne_special h).2.2.2.2.2.2.2.2.2.2.2.2

theorem skipWs_cons_not_ws {c : Char} (l : List Char) (h : isWsChar c = false) :
    skipWs (c :: l) = c :: l := by
  simp [skipWs, List.dropWhile_cons, h]

theorem skipWs_cons_ws {c : Char} (l : List Char) (h : isWsChar c = true) :
    skipWs (c :: l) = skipWs l := by
  simp [skipWs, List.dropWhile_cons, h]

theorem skipWs_replicate_space (X : List Char) :
    ∀ n : ℕ, skipWs (List.replicate n ' ' ++ X) = skipWs X := by
  intro n
  induction n with
  | zero => rfl
  | succ m ih =>
    rw [List.replicate_succ, List.cons_append, skipWs_cons_ws _ (by decide), ih]

theorem skipWs_ind_append (d : ℕ) (X : List Char) : skipWs (ind d ++ X) = skipWs X :=
  skipWs_replicate_space X (2 * d)

theorem printJson_head (d : ℕ) (v : Json) :
    ∃ c cs, printJson d v = c :: cs ∧ isWsChar c = false ∧ c ≠ ']' ∧ c ≠ rbrace := by
  rcases v with _ | b | n | s | (_ | ⟨e, es⟩) | (_ | ⟨m, ms⟩)
  · exact ⟨'n', ['u', 'l', 'l'], by simp [printJson], by decide, by decide, by decide⟩
  · rcases b with _ | _
    · exact ⟨'f', ['a', 'l', 's', 'e'], by simp [printJson], by decide, by decide, by decide⟩
    · exact ⟨'t', ['r', 'u', 'e'], by simp [printJson], by decide, by decide, by decide⟩
  · rcases n with n | m
    · rcases hpn : printNat n with _ | ⟨c, cs⟩
      · exact absurd hpn (printNat_ne_nil n)
      · have hc : c.isDigit = true := by
          apply printNat_all_digits n
          rw [hpn]
          simp
        exact ⟨c, cs, by simp [printJson, printInt, hpn], isWsChar_false_of_digit hc,
          (isDigit_ne_special hc).2.2.2.2.2.2.1, (isDigit_ne_special hc).2.2.2.2.2.2.2.1⟩
    · exact ⟨'-', printNat (m + 1), by simp [printJson, printInt], by decide, by decide,
        by decide⟩
  · exact ⟨'"', escapeStr s ++ ['"'], by simp [printJson, printStr], by decide, by decide,
      by decide⟩
  · exact ⟨'[', [']'], by simp [printJson], by decide, by decide, by decide⟩
  · exact ⟨'[', '\n' :: (printItems (d + 1) e es ++ ('\n' :: (ind d ++ [']']))),
      by simp [printJson], by decide, by decide, by decide⟩
  · exact ⟨lbrace, [rbrace], by simp [printJson], by decide, by decide, by decide⟩
  · exact ⟨lbrace, '\n' :: (printMembers (d + 1) m ms ++ ('\n' :: (ind d ++ [rbrace]))),
      by simp [printJson], by decide, by decide, by decide⟩

theorem skipWs_printJson_append (d : ℕ) (v : Json) (X : List Char) :
    skipWs (printJson d v ++ X) = printJson d v ++ X := by
  obtain ⟨c, cs, hpv, hws, -, -⟩ := printJson_head d v
  rw [hpv, List.cons_append, skipWs_cons_not_ws _ hws]

theorem takeWhile_digits_append (l r : List Char) (hl : ∀ c ∈ l, c.isDigit = true)
    (hr : headNotDigit r = true) : (l ++ r).takeWhile Char.isDigit = l := by
  induction l with
  | nil =>
    rcases r with _ | ⟨c, r'⟩
    · rfl
    · simp only [headNotDigit, Bool.not_eq_true'] at hr
      simp [List.takeWhile_cons, hr]
  | cons c l' ih =>
    rw [List.cons_append, List.takeWhile_cons, hl c (by simp)]
    rw [ih (fun x hx => hl x (by simp [hx]))]
    simp

theorem dropWhile_digits_append (l r : List Char) (hl : ∀ c ∈ l, c.isDigit = true)
    (hr : headNotDigit r = true) : (l ++ r).dropWhile Char.isDigit = r := by
  induction l with
  | nil =>
    rcases r with _ | ⟨c, r'⟩
    · rfl
    · simp only [headNotDigit, Bool.not_eq_true'] at hr
      simp [List.dropWhile_cons, hr]
  | cons c l' ih =>
    rw [List.cons_append, List.dropWhile_cons, hl c (by simp)]
    rw [ih (fun x hx => hl x (by simp [hx]))]
    simp

theorem parseNumTok_print (n : ℤ) (X : List Char) (hX : headNotDigit X = true) :
    parseNumTok (printInt n ++ X) = some (n, X) := by
  rcases n with n | m
  · rcases hpn : printNat n with _ | ⟨c, cs⟩
    · exact absurd hpn (printNat_ne_nil n)
    · have hc : c.isDigit = true := by
        apply printNat_all_digits n
        rw [hpn]
        simp
      rw [printInt, hpn, List.cons_append, parseNumTok,
        if_neg (isDigit_ne_special hc).2.2.2.2.2.2.2.2.1]
      rw [show c :: (cs ++ X) = (c :: cs) ++ X from rfl, ← hpn]
      rw [takeWhile_digits_append _ _ (printNat_all_digits n) hX,
        dropWhile_digits_append _ _ (printNat_all_digits n) hX,
        if_neg (printNat_ne_nil n), digitsVal_printNat]
      rfl
  · rw [printInt, List.cons_append, parseNumTok, if_pos rfl]
    rw [takeWhile_digits_append _ _ (printNat_all_digits (m + 1)) hX,
      dropWhile_digits_append _ _ (printNat_all_digits (m + 1)) hX,
      if_neg (printNat_ne_nil (m + 1)), digitsVal_printNat]
    simp [Int.negSucc_eq]

theorem parseStringBody_quote (X : List Char) :
    parseStringBody ('"' :: X) = some ([], X) := by
  rw [parseStringBody.eq_def]
  rfl

theorem parseStringBody_esc (e : Char) (rest2 : List Char) :
    parseStringBody ('\\' :: e :: rest2) =
      match unescapeChar e, parseStringBody rest2 with
      | some u, some (body, r) => some (u :: body, r)
      | _, _ => none := by
  rw [parseStringBody.eq_def]
  rfl

theorem parseStringBody_other (c : Char) (rest : List Char) (h1 : c ≠ '"')
    (h2 : c ≠ '\\') :
    parseStringBody (c :: rest) =
      match parseStringBody rest with
      | some (body, r) => some (c :: body, r)
      | none => none := by
  rw [parseStringBody.eq_def]
  dsimp only
  rw [if_neg h1, if_neg h2]

theorem parseStringBody_escape : ∀ s X : List Char,
    parseStringBody (escapeStr s ++ ('"' :: X)) = some (s, X) := by
  intro s
  induction s with
  | nil =>
    intro X
    rw [escapeStr, List.nil_append, parseStringBody_quote]
  | cons c s' ih =>
    intro X
    rw [escapeStr, List.append_assoc]
    by_cases h1 : c = '"'
    · subst h1
      rw [escapeChar, if_pos rfl]
      rw [show (['\\', '"'] : List Char) ++ (escapeStr s' ++ ('"' :: X)) =
        '\\' :: '"' :: (escapeStr s' ++ ('"' :: X)) from rfl]
      rw [parseStringBody_esc, ih X]; rfl
    · by_cases h2 : c = '\\'
      · subst h2
        rw [escapeChar, if_neg (by decide), if_pos rfl]
        rw [show (['\\', '\\'] : List Char) ++ (escapeStr s' ++ ('"' :: X)) =
          '\\' :: '\\' :: (escapeStr s' ++ ('"' :: X)) from rfl]
        rw [parseStringBody_esc, ih X]; rfl
      · by_cases h3 : c = '\n'
        · subst h3
          rw [escapeChar, if_neg (by decide), if_neg (by decide), if_pos rfl]
          rw [show (['\\', 'n'] : List Char) ++ (escapeStr s' ++ ('"' :: X)) =
            '\\' :: 'n' :: (escapeStr s' ++ ('"' :: X)) from rfl]
          rw [parseStringBody_esc, ih X]; rfl
        · by_cases h4 : c = '\t'
          · subst h4
            rw [escapeChar, if_neg (by decide), if_neg (by decide), if_neg (by decide),
              if_pos rfl]
            rw [show (['\\', 't'] : List Char) ++ (escapeStr s' ++ ('"' :: X)) =
              '\\' :: 't' :: (escapeStr s' ++ ('"' :: X)) from rfl]
            rw [parseStringBody_esc, ih X]; rfl
          · by_cases h5 : c = '\r'
            · subst h5
              rw [escapeChar, if_neg (by decide), if_neg (by decide), if_neg (by decide),
                if_neg (by decide), if_pos rfl]
              rw [show (['\\', 'r'] : List Char) ++ (escapeStr s' ++ ('"' :: X)) =
                '\\' :: 'r' :: (escapeStr s' ++ ('"' :: X)) from rfl]
              rw [parseStringBody_esc, ih X]; rfl
            · rw [escapeChar, if_neg h1, if_neg h2, if_neg h3, if_neg h4, if_neg h5]
              rw [List.singleton_append, parseStringBody_other c _ h1 h2, ih X]

theorem skipWs_items_text (d : ℕ) (e : Json) (es : List Json) (Z : List Char) :
    skipWs (printItems d e es ++ Z) = printJson d e ++ itemsTail d es Z := by
  cases es with
  | nil =>
    rw [show printItems d e [] = ind d ++ printJson d e by simp [printItems]]
    rw [List.append_assoc, skipWs_ind_append, skipWs_printJson_append, itemsTail]
  | cons e2 es' =>
    rw [show printItems d e (e2 :: es') =
      ind d ++ (printJson d e ++ (',' :: '\n' :: printItems d e2 es')) by simp [printItems]]
    rw [itemsTail]
    simp only [List.append_assoc, List.cons_append]
    rw [skipWs_ind_append, skipWs_printJson_append]

theorem skipWs_members_text (d : ℕ) (k : List Char) (v : Json)
    (ms : List (List Char × Json)) (Z : List Char) :
    skipWs (printMembers d (k, v) ms ++ Z) =
      '"' :: (escapeStr k ++ ('"' :: (':' :: ' ' :: (printJson d v ++ membersTail d ms Z)))) := by
  cases ms with
  | nil =>
    rw [show printMembers d (k, v) [] = ind d ++ (printStr k ++ (':' :: ' ' :: printJson d v))
      by simp [printMembers]]
    rw [membersTail, printStr]
    simp only [List.append_assoc, List.cons_append]
    rw [skipWs_ind_append, skipWs_cons_not_ws _ (by decide)]
    simp
  | cons m2 ms' =>
    rw [show printMembers d (k, v) (m2 :: ms') =
      ind d ++ (printStr k ++ (':' :: ' ' :: printJson d v)) ++
        (',' :: '\n' :: printMembers d m2 ms') by simp [printMembers]]
    rw [membersTail, printStr]
    simp only [List.append_assoc, List.cons_append]
    rw [skipWs_ind_append, skipWs_cons_not_ws _ (by decide)]
    simp

theorem headNotDigit_itemsTail (d : ℕ) (es : List Json) {Z : List Char}
    (hZ : headNotDigit Z = true) : headNotDigit (itemsTail d es Z) = true := by
  cases es with
  | nil => exact hZ
  | cons e2 es' => rfl

theorem headNotDigit_membersTail (d : ℕ) (ms : List (List Char × Json)) {Z : List Char}
    (hZ : headNotDigit Z = true) : headNotDigit (membersTail d ms Z) = true := by
  cases ms with
  | nil => exact hZ
  | cons m2 ms' => rfl

theorem jsize_pos (v : Json) : 1 ≤ jsize v := by
  rcases v with _ | b | n | s | (_ | ⟨e, es⟩) | (_ | ⟨m, ms⟩) <;> rw [jsize] <;> omega

theorem jsizeItems_pos (e : Json) (es : List Json) : 1 ≤ jsizeItems e es := by
  rcases es with _ | ⟨e2, es'⟩ <;> rw [jsizeItems] <;> omega

theorem jsizeMembers_pos (m : List Char × Json) (ms : List (List Char × Json)) :
    1 ≤ jsizeMembers m ms := by
  rcases m with ⟨k, v⟩
  rcases ms with _ | ⟨m2, ms'⟩ <;> rw [jsizeMembers] <;> omega

/-- The printer/parser inversion, proved for values, array items and object
members simultaneously by induction on the parser fuel. -/
theorem parse_print_aux : ∀ fuel : ℕ,
    (∀ (v : Json) (d : ℕ) (rest l : List Char), jsize v ≤ fuel →
      headNotDigit rest = true → skipWs l = printJson d v ++ rest →
      parseVal fuel l = some (v, rest)) ∧
    (∀ (e : Json) (es : List Json) (d d' : ℕ) (rest l : List Char),
      jsizeItems e es ≤ fuel →
      skipWs l = printJson d e ++ itemsTail d es ('\n' :: (ind d' ++ (']' :: rest))) →
      parseItems fuel l = some (e :: es, rest)) ∧
    (∀ (k : List Char) (v : Json) (ms : List (List Char × Json)) (d d' : ℕ)
      (rest l : List Char), jsizeMembers (k, v) ms ≤ fuel →
      skipWs l = '"' :: (escapeStr k ++ ('"' :: (':' :: ' ' ::
        (printJson d v ++ membersTail d ms ('\n' :: (ind d' ++ (rbrace :: rest))))))) →
      parseMembers fuel l = some ((k, v) :: ms, rest)) := by
  intro fuel
  induction fuel with
  | zero =>
    refine ⟨?_, ?_, ?_⟩
    · intro v d rest l hsz _ _
      exact absurd hsz (by have := jsize_pos v; omega)
    · intro e es d d' rest l hsz _
      exact absurd hsz (by have := jsizeItems_pos e es; omega)
    · intro k v ms d d' rest l hsz _
      exact absurd hsz (by have := jsizeMembers_pos (k, v) ms; omega)
  | succ n ih =>
    refine ⟨?_, ?_, ?_⟩
    · intro v d rest l hsz hrest hskip
      rcases v with _ | b | n0 | s | (_ | ⟨e, es⟩) | (_ | ⟨m, ms⟩)
      · have h : skipWs l = 'n' :: ('u' :: ('l' :: ('l' :: rest))) := by
          rw [hskip]; simp [printJson]
        rw [parseVal.eq_def]
        dsimp only
        rw [h]
        rfl
      · rcases b with _ | _
        · have h : skipWs l = 'f' :: ('a' :: ('l' :: ('s' :: ('e' :: rest)))) := by
            rw [hskip]; simp [printJson]
          rw [parseVal.eq_def]
          dsimp only
          rw [h]
          rfl
        · have h : skipWs l = 't' :: ('r' :: ('u' :: ('e' :: rest))) := by
            rw [hskip]; simp [printJson]
          rw [parseVal.eq_def]
          dsimp only
          rw [h]
          rfl
      · rcases n0 with n0 | m0
        · rcases hpn : printNat n0 with _ | ⟨hc, cs⟩
          · exact absurd hpn (printNat_ne_nil n0)
          · have hcd : hc.isDigit = true := by
              apply printNat_all_digits n0
              rw [hpn]; simp
            have h : skipWs l = hc :: (cs ++ rest) := by
              rw [hskip]; simp [printJson, printInt, hpn]
            rw [parseVal.eq_def]
            dsimp only
            rw [h]
            dsimp only
            rw [if_neg (isDigit_ne_special hcd).1, if_neg (isDigit_ne_special hcd).2.1,
              if_neg (isDigit_ne_special hcd).2.2.1,
              if_neg (isDigit_ne_special hcd).2.2.2.1,
              if_neg (isDigit_ne_special hcd).2.2.2.2.1,
              if_neg (isDigit_ne_special hcd).2.2.2.2.2.1]
            rw [show hc :: (cs ++ rest) = printInt (Int.ofNat n0) ++ rest by
              simp [printInt, hpn]]
            rw [parseNumTok_print _ _ hrest]
        · have h : skipWs l = '-' :: (printNat (m0 + 1) ++ rest) := by
            rw [hskip]; simp [printJson, printInt]
          rw [parseVal.eq_def]
          dsimp only
          rw [h]
          dsimp only
          rw [if_neg (by decide), if_neg (by decide), if_neg (by decide),
            if_neg (by decide), if_neg (by decide), if_neg (by decide)]
          rw [show '-' :: (printNat (m0 + 1) ++ rest) = printInt (Int.negSucc m0) ++ rest by
            simp [printInt]]
          rw [parseNumTok_print _ _ hrest]
      · have h : skipWs l = '"' :: (escapeStr s ++ ('"' :: rest)) := by
          rw [hskip]
          simp only [printJson, printStr, List.cons_append, List.append_assoc,
            List.singleton_append, List.nil_append]
        rw [parseVal.eq_def]
        dsimp only
        rw [h]
        dsimp only
        rw [if_neg (by decide), if_neg (by decide), if_neg (by decide), if_pos rfl]
        rw [parseStringBody_escape s rest]
      · have h : skipWs l = '[' :: (']' :: rest) := by
          rw [hskip]; simp [printJson]
        rw [parseVal.eq_def]
        dsimp only
        rw [h]
        dsimp only
        rw [if_neg (by decide), if_neg (by decide), if_neg (by decide), if_neg (by decide),
          if_pos rfl, skipWs_cons_not_ws _ (by decide)]
        dsimp only
        rw [if_pos rfl]
      · have hsz' : jsizeItems e es ≤ n := by
          rw [jsize] at hsz; omega
        rcases printJson_head (d + 1) e with ⟨hc, hcs, hpv, hws, hcne, -⟩
        have h : skipWs l = '[' :: ('\n' ::
            (printItems (d + 1) e es ++ ('\n' :: (ind d ++ (']' :: rest))))) := by
          rw [hskip]
          simp only [printJson, List.cons_append, List.append_assoc, List.singleton_append,
            List.nil_append]
        rw [parseVal.eq_def]
        dsimp only
        rw [h]
        dsimp only
        rw [if_neg (by decide), if_neg (by decide), if_neg (by decide), if_neg (by decide),
          if_pos rfl]
        have h2 : skipWs ('\n' ::
            (printItems (d + 1) e es ++ ('\n' :: (ind d ++ (']' :: rest))))) =
            printJson (d + 1) e ++ itemsTail (d + 1) es ('\n' :: (ind d ++ (']' :: rest))) := by
          rw [skipWs_cons_ws _ (by decide), skipWs_items_text]
        rw [h2, hpv, List.cons_append]
        dsimp only
        rw [if_neg hcne]
        rw [show hc :: (hcs ++ itemsTail (d + 1) es ('\n' :: (ind d ++ (']' :: rest)))) =
          printJson (d + 1) e ++ itemsTail (d + 1) es ('\n' :: (ind d ++ (']' :: rest))) by
          rw [hpv, List.cons_append]]
        rw [ih.2.1 e es (d + 1) d rest _ hsz' (by rw [skipWs_printJson_append])]
      · have h : skipWs l = lbrace :: (rbrace :: rest) := by
          rw [hskip]; simp [printJson]
        rw [parseVal.eq_def]
        dsimp only
        rw [h]
        dsimp only
        rw [if_neg (by decide), if_neg (by decide), if_neg (by decide), if_neg (by decide),
          if_neg (by decide), if_pos rfl, skipWs_cons_not_ws _ (by decide)]
        dsimp only
        rw [if_pos rfl]
      · rcases m with ⟨k, v2⟩
        have hsz' : jsizeMembers (k, v2) ms ≤ n := by
          rw [jsize] at hsz; omega
        have h : skipWs l = lbrace :: ('\n' ::
            (printMembers (d + 1) (k, v2) ms ++ ('\n' :: (ind d ++ (rbrace :: rest))))) := by
          rw [hskip]
          simp only [printJson, List.cons_append, List.append_assoc, List.singleton_append,
            List.nil_append]
        rw [parseVal.eq_def]
        dsimp only
        rw [h]
        dsimp only
        rw [if_neg (by decide), if_neg (by decide), if_neg (by decide), if_neg (by decide),
          if_neg (by decide), if_pos rfl]
        have h2 : skipWs ('\n' ::
            (printMembers (d + 1) (k, v2) ms ++ ('\n' :: (ind d ++ (rbrace :: rest))))) =
            '"' :: (escapeStr k ++ ('"' :: (':' :: ' ' :: (printJson (d + 1) v2 ++
              membersTail (d + 1) ms ('\n' :: (ind d ++ (rbrace :: rest))))))) := by
          rw [skipWs_cons_ws _ (by decide), skipWs_members_text]
        rw [h2]
        dsimp only
        rw [if_neg (by decide)]
        rw [ih.2.2 k v2 ms (d + 1) d rest _ hsz'
          (by rw [skipWs_cons_not_ws _ (by decide)])]
    · intro e es d d' rest l hsz hskip
      rcases es with _ | ⟨e2, es'⟩
      · rw [jsizeItems] at hsz
        simp only [itemsTail] at hskip
        rw [parseItems.eq_def]
        dsimp only
        rw [ih.1 e d ('\n' :: (ind d' ++ (']' :: rest))) l (by omega) rfl hskip]
        dsimp only
        have hc : skipWs ('\n' :: (ind d' ++ (']' :: rest))) = ']' :: rest := by
          rw [skipWs_cons_ws _ (by decide), skipWs_ind_append,
            skipWs_cons_not_ws _ (by decide)]
        rw [hc]
        dsimp only
        rw [if_neg (by decide), if_pos rfl]
      · rw [jsizeItems] at hsz
        simp only [itemsTail] at hskip
        rw [parseItems.eq_def]
        dsimp only
        rw [ih.1 e d (',' :: ('\n' :: (printItems d e2 es' ++
          ('\n' :: (ind d' ++ (']' :: rest)))))) l (by omega) rfl hskip]
        dsimp only
        rw [skipWs_cons_not_ws _ (by decide)]
        dsimp only
        rw [if_pos rfl]
        rw [ih.2.1 e2 es' d d' rest _ (by omega) (by
          rw [skipWs_cons_ws _ (by decide), skipWs_items_text])]
    · intro k v ms d d' rest l hsz hskip
      rcases ms with _ | ⟨⟨k2, v2⟩, ms'⟩
      · rw [jsizeMembers.eq_def] at hsz
        dsimp only at hsz
        simp only [membersTail] at hskip
        rw [parseMembers.eq_def]
        dsimp only
        rw [hskip]
        dsimp only
        rw [if_pos rfl]
        rw [parseStringBody_escape k (':' :: ' ' :: (printJson d v ++
          ('\n' :: (ind d' ++ (rbrace :: rest)))))]
        dsimp only
        rw [skipWs_cons_not_ws _ (by decide)]
        dsimp only
        rw [if_pos rfl]
        rw [ih.1 v d ('\n' :: (ind d' ++ (rbrace :: rest))) _ (by omega) rfl (by
          rw [skipWs_cons_ws _ (by decide), skipWs_printJson_append])]
        dsimp only
        have hc : skipWs ('\n' :: (ind d' ++ (rbrace :: rest))) = rbrace :: rest := by
          rw [skipWs_cons_ws _ (by decide), skipWs_ind_append,
            skipWs_cons_not_ws _ (by decide)]
        rw [hc]
        dsimp only
        rw [if_neg (by decide), if_pos rfl]
      · rw [jsizeMembers.eq_def] at hsz
        dsimp only at hsz
        simp only [membersTail] at hskip
        rw [parseMembers.eq_def]
        dsimp only
        rw [hskip]
        dsimp only
        rw [if_pos rfl]
        rw [parseStringBody_escape k (':' :: ' ' :: (printJson d v ++
          (',' :: ('\n' :: (printMembers d (k2, v2) ms' ++
            ('\n' :: (ind d' ++ (rbrace :: rest))))))))]
        dsimp only
        rw [skipWs_cons_not_ws _ (by decide)]
        dsimp only
        rw [if_pos rfl]
        rw [ih.1 v d (',' :: ('\n' :: (printMembers d (k2, v2) ms' ++
          ('\n' :: (ind d' ++ (rbrace :: rest)))))) _ (by omega) rfl (by
            rw [skipWs_cons_ws _ (by decide), skipWs_printJson_append])]
        dsimp only
        rw [skipWs_cons_not_ws _ (by decide)]
        dsimp only
        rw [if_pos rfl]
        rw [ih.2.2 k2 v2 ms' d d' rest _ (by omega) (by
          rw [skipWs_cons_ws _ (by decide), skipWs_members_text])]

theorem printInt_ne_nil (z : ℤ) : printInt z ≠ [] := by
  cases z with
  | ofNat n => exact printNat_ne_nil n
  | negSucc m => simp [printInt]

theorem json_sizeOf_pos (v : Json) : 1 ≤ sizeOf v := by
  rcases v with _ | b | n0 | s | es | ms <;> simp <;> omega

/-- The printed form of a value is at least as long as the fuel its parse
needs (so `input.length + 1` fuel always suffices). -/
theorem jsize_le_aux : ∀ N : ℕ,
    (∀ (v : Json) (d : ℕ), sizeOf v ≤ N → jsize v ≤ (printJson d v).length) ∧
    (∀ (e : Json) (es : List Json) (d : ℕ), 1 ≤ d → sizeOf e + sizeOf es ≤ N →
      jsizeItems e es ≤ (printItems d e es).length) ∧
    (∀ (k : List Char) (v : Json) (ms : List (List Char × Json)) (d : ℕ), 1 ≤ d →
      sizeOf v + sizeOf ms ≤ N →
      jsizeMembers (k, v) ms ≤ (printMembers d (k, v) ms).length) := by
  intro N
  induction N with
  | zero =>
    refine ⟨?_, ?_, ?_⟩
    · intro v d hsz
      exact absurd hsz (by have := json_sizeOf_pos v; omega)
    · intro e es d _ hsz
      exact absurd hsz (by have := json_sizeOf_pos e; omega)
    · intro k v ms d _ hsz
      exact absurd hsz (by have := json_sizeOf_pos v; omega)
  | succ N ih =>
    refine ⟨?_, ?_, ?_⟩
    · intro v d hsz
      rcases v with _ | b | n0 | s | (_ | ⟨e, es⟩) | (_ | ⟨⟨k, v2⟩, ms⟩)
      · simp [jsize, printJson]
      · rcases b with _ | _ <;> simp [jsize, printJson]
      · rw [jsize]
        have h1 : 1 ≤ (printInt n0).length :=
          List.length_pos.mpr (printInt_ne_nil n0)
        simp only [printJson]
        omega
      · rw [jsize]
        simp only [printJson, printStr, List.length_cons]
        omega
      · simp [jsize, printJson]
      · simp only [Json.arr.sizeOf_spec, List.cons.sizeOf_spec] at hsz
        have hii := ih.2.1 e es (d + 1) (by omega) (by omega)
        rw [jsize]
        simp only [printJson, List.length_cons, List.length_append, ind,
          List.length_replicate]
        omega
      · simp [jsize, printJson]
      · simp only [Json.obj.sizeOf_spec, List.cons.sizeOf_spec, Prod.mk.sizeOf_spec] at hsz
        have hmm2 := ih.2.2 k v2 ms (d + 1) (by omega) (by omega)
        rw [jsize]
        simp only [printJson, List.length_cons, List.length_append, ind,
          List.length_replicate]
        omega
    · intro e es d hd hsz
      rcases es with _ | ⟨e2, es'⟩
      · rw [jsizeItems]
        have hv := ih.1 e d (by simp at hsz; omega)
        simp only [printItems, List.length_append, ind, List.length_replicate]
        omega
      · rw [jsizeItems]
        simp only [List.cons.sizeOf_spec] at hsz
        have hv := ih.1 e d (by omega)
        have hii := ih.2.1 e2 es' d hd (by omega)
        simp only [printItems, List.length_append, List.length_cons, ind,
          List.length_replicate]
        omega
    · intro k v ms d hd hsz
      rcases ms with _ | ⟨⟨k2, v2⟩, ms'⟩
      · rw [jsizeMembers.eq_def]
        dsimp only
        have hv := ih.1 v d (by simp at hsz; omega)
        simp only [printMembers, printStr, List.length_append, List.length_cons, ind,
          List.length_replicate]
        omega
      · rw [jsizeMembers.eq_def]
        dsimp only
        simp only [List.cons.sizeOf_spec, Prod.mk.sizeOf_spec] at hsz
        have hv := ih.1 v d (by omega)
        have hmm2 := ih.2.2 k2 v2 ms' d hd (by omega)
        simp only [printMembers, printStr, List.length_append, List.length_cons, ind,
          List.length_replicate]
        omega

theorem jsize_le_printJson (v : Json) (d : ℕ) : jsize v ≤ (printJson d v).length :=
  (jsize_le_aux (sizeOf v)).1 v d (le_refl _)

theorem skipWs_printJson (d : ℕ) (v : Json) :
    skipWs (printJson d v) = printJson d v := by
  have := skipWs_printJson_append d v []
  simpa using this

/-- `JSON.parse` inverts `JSON.stringify(_, null, 2)` on every
JSON-serializable value. -/
theorem parseJson_stringify (v : Json) : parseJson (stringifyConversation v) = some v := by
  unfold parseJson stringifyConversation
  rw [(parse_print_aux ((printJson 0 v).length + 1)).1 v 0 [] (printJson 0 v)
    (by have := jsize_le_printJson v 0; omega) rfl
    (by rw [List.append_nil, skipWs_printJson])]
  rfl

/-- C10 (witness): the handler at the concrete draw `0`, on two different
inputs. -/
theorem c10_witness :
    (recognizeSignHandler none 0 = recognizeSignHandler (some "junk") 0) ∧
      ∃ s, recognizeSignHandler none 0 = RecognizeResult.ok s ∧
        (s.sign = "hello" ∨ s.sign = "yes" ∨ s.sign = "no" ∨
          s.sign = "thank_you" ∨ s.sign = "please") :=
  ⟨c10_recognize_total_input_independent.1 none (some "junk") 0,
    c10_recognize_total_input_independent.2.1 none 0 (le_refl 0) (by norm_num)⟩

/-- C9: saving a conversation through a non-cancelled dialog and then
loading the written file round-trips — for every JSON-serializable
conversation value, every prior file-system state and every chosen path,
`load-conversation` on the saved path returns success with a conversation
structurally equal to the one passed to `save-conversation`. -/
theorem c9_save_load_roundtrip (conv : Json) (fs : FileSystem) (path : List Char) :
    loadConversation (saveConversation (some path) conv fs).2 path =
      LoadResult.ok conv := by
  show loadConversation (writeFile path (stringifyConversation conv) fs) path = _
  rw [loadConversation.eq_def, writeFile, readFile, if_pos rfl]
  dsimp only
  rw [parseJson_stringify]

end SignBridge
